import Mathlib

/-!
Formal model of the eidos memory & retrieval store.

This file gives a shallow embedding of the storage core of the repository:
the Valkey-backed key/value service (`src/services/storage/valkey.py`),
the in-process short-term memory (`src/services/llm/memory/short_term.py`),
the persisted conversation history (`src/services/ai/memory/short_term.py`)
and the memory record service (`src/services/ai/memory/service.py`),
together with theorems settling the specification's claims about them.

Modelling conventions:
- JSON values (the payloads of `json.dumps` / `json.loads`) are the
  inductive type `Json`; numbers are restricted to integers (float payloads
  and float wire formats are outside the model).
- Wall-clock time is an explicit `now` parameter; Valkey key expiry is an
  absolute timestamp (`SET ... EX n` at time `t` expires at `t + n`, and a
  key is absent once `now` reaches its expiry).
- Async operations that raise on a missing connection return
  `Except String`; the remote Valkey server's data is a `ValkeyState`.
- The engine-side vector KNN search (`FT.SEARCH` with a `COSINE` metric,
  as configured by `create_vector_index`) is modelled exactly: tag filter,
  ascending sort by cosine distance, and `top_k` paging.  Scores are kept
  as the exact pair (dot product, squared product of norms); the engine's
  reported float score `1 - dot / sqrt (‖q‖²·‖v‖²)` appears in theorem
  statements over `ℝ`.
-/

namespace Eidos

/-- JSON values as produced and consumed by the Python `json` module in this
repository; numbers are modelled as integers. -/
inductive Json where
  | null : Json
  | bool (b : Bool) : Json
  | num (n : Int) : Json
  | str (s : String) : Json
  | arr (elems : List Json) : Json
  | obj (fields : List (String × Json)) : Json

/-- Escape of a single character inside a JSON string literal, as done by
`json.dumps` (with `ensure_ascii` disabled for characters above U+001F). -/
def escChar (c : Char) : List Char :=
  if c = '"' then ['\\', '"']
  else if c = '\\' then ['\\', '\\']
  else if c = '\x08' then ['\\', 'b']
  else if c = '\x09' then ['\\', 't']
  else if c = '\x0a' then ['\\', 'n']
  else if c = '\x0c' then ['\\', 'f']
  else if c = '\x0d' then ['\\', 'r']
  else if c.toNat < 32 then
    ['\\', 'u', '0', '0', Nat.digitChar (c.toNat / 16), Nat.digitChar (c.toNat % 16)]
  else [c]

/-- Escaped body of a JSON string literal. -/
def escString (cs : List Char) : List Char := cs.flatMap escChar

/-- Decimal digits of a positive natural number, most significant first;
the first argument is recursion fuel (any `fuel ≥ m` is enough). -/
def natCharsAux : Nat → Nat → List Char
  | 0, _ => []
  | fuel + 1, m =>
    if m = 0 then [] else natCharsAux fuel (m / 10) ++ [Nat.digitChar (m % 10)]

/-- Decimal rendering of a natural number. -/
def natChars (m : Nat) : List Char :=
  if m = 0 then ['0'] else natCharsAux m m

/-- Decimal rendering of an integer, as `json.dumps` prints Python ints. -/
def intChars (n : Int) : List Char :=
  if n < 0 then '-' :: natChars n.natAbs else natChars n.natAbs

mutual

/-- Rendering of a JSON value by `json.dumps` with the default separators
(`", "` between items, `": "` after keys). -/
def renderJson : Json → List Char
  | Json.null => ['n', 'u', 'l', 'l']
  | Json.bool true => ['t', 'r', 'u', 'e']
  | Json.bool false => ['f', 'a', 'l', 's', 'e']
  | Json.num n => intChars n
  | Json.str s => '"' :: (escString s.toList ++ ['"'])
  | Json.arr xs => '[' :: (renderElems xs ++ [']'])
  | Json.obj fs => '\x7b' :: (renderFields fs ++ ['\x7d'])

/-- Rendering of the comma-separated items of a JSON array. -/
def renderElems : List Json → List Char
  | [] => []
  | [v] => renderJson v
  | v :: rest => renderJson v ++ (',' :: ' ' :: renderElems rest)

/-- Rendering of the comma-separated entries of a JSON object. -/
def renderFields : List (String × Json) → List Char
  | [] => []
  | [(k, v)] => ('"' :: (escString k.toList ++ ['"'])) ++ (':' :: ' ' :: renderJson v)
  | (k, v) :: rest =>
    ('"' :: (escString k.toList ++ ['"'])) ++ (':' :: ' ' :: renderJson v)
      ++ (',' :: ' ' :: renderFields rest)

end

/-- The string produced by `json.dumps` for a JSON value. -/
def jsonDumps (v : Json) : String := String.mk (renderJson v)

mutual

/-- Parser fuel sufficient for a JSON value (each recursive parser call
consumes one unit). -/
def jsonFuel : Json → Nat
  | Json.arr xs => 1 + elemsFuel xs
  | Json.obj fs => 1 + fieldsFuel fs
  | _ => 1

/-- Parser fuel sufficient for the items of an array. -/
def elemsFuel : List Json → Nat
  | [] => 1
  | [v] => 1 + jsonFuel v
  | v :: rest => 1 + jsonFuel v + elemsFuel rest

/-- Parser fuel sufficient for the entries of an object. -/
def fieldsFuel : List (String × Json) → Nat
  | [] => 1
  | [(_, v)] => 1 + jsonFuel v
  | (_, v) :: rest => 1 + jsonFuel v + fieldsFuel rest

end

/-- JSON whitespace. -/
def isWsChar (c : Char) : Bool :=
  c = ' ' || c = '\x09' || c = '\x0a' || c = '\x0d'

/-- Drop leading JSON whitespace. -/
def skipWs (cs : List Char) : List Char := cs.dropWhile isWsChar

/-- Numeric value of a (lowercase) hexadecimal digit character. -/
def hexVal (c : Char) : Nat :=
  if c.isDigit then c.toNat - 48
  else if 'a' ≤ c && c ≤ 'f' then c.toNat - 87
  else if 'A' ≤ c && c ≤ 'F' then c.toNat - 55
  else 0

/-- Decoding of a single-character JSON escape. -/
def escDecode (c : Char) : Option Char :=
  if c = '"' then some '"'
  else if c = '\\' then some '\\'
  else if c = '/' then some '/'
  else if c = 'b' then some '\x08'
  else if c = 'f' then some '\x0c'
  else if c = 'n' then some '\x0a'
  else if c = 'r' then some '\x0d'
  else if c = 't' then some '\x09'
  else none

/-- Parser for the body of a JSON string literal (after the opening quote);
returns the decoded characters and the input following the closing quote.
The first argument is recursion fuel (the input length plus one is enough). -/
def parseStrAux : Nat → List Char → Option (List Char × List Char)
  | 0, _ => none
  | _ + 1, [] => none
  | fuel + 1, c :: cs =>
    if c = '"' then some ([], cs)
    else if c = '\\' then
      match cs with
      | [] => none
      | e :: cs2 =>
        if e = 'u' then
          match cs2 with
          | h1 :: h2 :: h3 :: h4 :: cs3 =>
            match parseStrAux fuel cs3 with
            | some (out, r) =>
              some (Char.ofNat
                (hexVal h1 * 4096 + hexVal h2 * 256 + hexVal h3 * 16 + hexVal h4) :: out, r)
            | none => none
          | _ => none
        else
          match escDecode e with
          | some d =>
            match parseStrAux fuel cs2 with
            | some (out, r) => some (d :: out, r)
            | none => none
          | none => none
    else
      match parseStrAux fuel cs with
      | some (out, r) => some (c :: out, r)
      | none => none

/-- Accumulating decimal parse of a digit string. -/
def parseNat (ds : List Char) : Nat :=
  ds.foldl (fun a c => a * 10 + (c.toNat - 48)) 0

mutual

/-- Recursive-descent JSON parser (one value), fuel-indexed.  It accepts all
strings `json.dumps` produces; `jsonLoads` below additionally demands that
only whitespace remains, matching `json.loads`. -/
def parseVal : Nat → List Char → Option (Json × List Char)
  | 0, _ => none
  | fuel + 1, input =>
    match skipWs input with
    | [] => none
    | c :: cs =>
      if c = 'n' then
        match cs with
        | 'u' :: 'l' :: 'l' :: r => some (Json.null, r)
        | _ => none
      else if c = 't' then
        match cs with
        | 'r' :: 'u' :: 'e' :: r => some (Json.bool true, r)
        | _ => none
      else if c = 'f' then
        match cs with
        | 'a' :: 'l' :: 's' :: 'e' :: r => some (Json.bool false, r)
        | _ => none
      else if c = '"' then
        match parseStrAux (cs.length + 1) cs with
        | some (out, r) => some (Json.str (String.mk out), r)
        | none => none
      else if c = '[' then
        match parseElems fuel cs with
        | some (xs, r) => some (Json.arr xs, r)
        | none => none
      else if c = '\x7b' then
        match parseFields fuel cs with
        | some (fs, r) => some (Json.obj fs, r)
        | none => none
      else if c = '-' then
        match cs.span Char.isDigit with
        | (ds, r) => if ds.isEmpty then none else some (Json.num (-(parseNat ds : Int)), r)
      else if c.isDigit then
        match (c :: cs).span Char.isDigit with
        | (ds, r) => some (Json.num (parseNat ds : Int), r)
      else none

/-- Parser for the items of a JSON array, after the opening bracket. -/
def parseElems : Nat → List Char → Option (List Json × List Char)
  | 0, _ => none
  | fuel + 1, input =>
    match skipWs input with
    | [] => none
    | c :: cs =>
      if c = ']' then some ([], cs)
      else
        match parseVal fuel (c :: cs) with
        | some (v, r) =>
          match skipWs r with
          | ',' :: r2 =>
            match parseElems fuel r2 with
            | some (vs, r3) => some (v :: vs, r3)
            | none => none
          | ']' :: r2 => some ([v], r2)
          | _ => none
        | none => none

/-- Parser for the entries of a JSON object, after the opening brace. -/
def parseFields : Nat → List Char → Option (List (String × Json) × List Char)
  | 0, _ => none
  | fuel + 1, input =>
    match skipWs input with
    | [] => none
    | c :: cs =>
      if c = '\x7d' then some ([], cs)
      else if c = '"' then
        match parseStrAux (cs.length + 1) cs with
        | some (key, r) =>
          match skipWs r with
          | ':' :: r2 =>
            match parseVal fuel r2 with
            | some (v, r3) =>
              match skipWs r3 with
              | ',' :: r4 =>
                match parseFields fuel r4 with
                | some (fs, r5) => some ((String.mk key, v) :: fs, r5)
                | none => none
              | '\x7d' :: r4 => some ([(String.mk key, v)], r4)
              | _ => none
            | none => none
          | _ => none
        | none => none
      else none

end

/-- The model of `json.loads`: parse one value and require that only
whitespace remains; `none` models `json.JSONDecodeError`. -/
def jsonLoads (s : String) : Option Json :=
  match parseVal (s.toList.length + 1) s.toList with
  | some (v, r) => if skipWs r = [] then some v else none
  | none => none

/-- Characters that may legitimately follow a complete JSON value inside a
rendered document: end of input, a separator, or a closing delimiter. -/
def boundary (rest : List Char) : Bool :=
  match rest with
  | [] => true
  | c :: _ => c = ',' || c = ']' || c = '\x7d'

/-- First characters a rendered JSON value can have: never whitespace and
never a closing delimiter, separator or colon. -/
def goodStart (c : Char) : Bool :=
  !isWsChar c && !(c = ']') && !(c = ',') && !(c = '\x7d') && !(c = ':')

/-- Python truthiness of a JSON value (`if data:`). -/
def Json.truthy : Json → Bool
  | Json.null => false
  | Json.bool b => b
  | Json.num n => n ≠ 0
  | Json.str s => s ≠ ""
  | Json.arr xs => !xs.isEmpty
  | Json.obj fs => !fs.isEmpty

/-- A stored Valkey string entry: the raw value plus its absolute expiry
time (`none` means the key never expires). -/
structure VEntry where
  value : String
  expiresAt : Option Nat
deriving DecidableEq

/-- A vector document stored as a Redis hash under `doc:{key}` by
`add_vector`: the float32 byte payload is modelled as the exact rational
vector. -/
structure VDoc where
  vector : List ℚ
  content : String
  tag : String
deriving DecidableEq

/-- The remote Valkey server state visible to one `ValkeyService` client:
connection flag, string keyspace, vector-document hashes, and the set of
created search indices (name, declared dimensionality). -/
structure ValkeyState where
  connected : Bool
  kv : List (String × VEntry)
  docs : List (String × VDoc)
  indexSpecs : List (String × Nat)
deriving DecidableEq

/-- Is an entry expired at the given time? -/
def VEntry.expired (e : VEntry) (now : Nat) : Bool :=
  match e.expiresAt with
  | some t => t ≤ now
  | none => false

/-- Value of a live key (expired keys are logically absent). -/
def kvLookup (kv : List (String × VEntry)) (now : Nat) (k : String) : Option String :=
  match kv.find? (fun e => e.1 = k) with
  | some (_, e) => if e.expired now then none else some e.value
  | none => none

/-- Write a key, replacing any previous entry. -/
def kvSet (kv : List (String × VEntry)) (k : String) (e : VEntry) :
    List (String × VEntry) :=
  (k, e) :: kv.eraseP (fun p => p.1 = k)

/-- Glob-stem match used by `KEYS stem*` patterns: the key begins with the
stem. -/
def strStem (stem k : String) : Bool := stem.data.isPrefixOf k.data

/-- Live keys beginning with the given pattern stem (models `KEYS stem*`). -/
def kvKeysUnder (kv : List (String × VEntry)) (now : Nat) (stem : String) : List String :=
  (kv.filter (fun p => strStem stem p.1 && !p.2.expired now)).map (fun p => p.1)

namespace ValkeyService

/-- Serialize a value to its storage string (`json.dumps`). -/
def _serialize (value : Json) : String := jsonDumps value

/-- Deserialize a stored string; a `None` reply stays `None` (modelled as
`Json.null`) and a string that fails JSON decoding is returned raw. -/
def _deserialize (value : Option String) : Json :=
  match value with
  | none => Json.null
  | some s =>
    match jsonLoads s with
    | some v => v
    | none => Json.str s

/-- The `set` operation: serialize and `SET key value EX ttl`.  A `ttl` of
`none` stores the key without an expiry. -/
def set (s : ValkeyState) (now : Nat) (key : String) (value : Json)
    (ttl : Option Nat) : Except String ValkeyState :=
  if !s.connected then Except.error "Not connected to Valkey"
  else Except.ok
    { s with kv := kvSet s.kv key ⟨_serialize value, ttl.map (fun n => now + n)⟩ }

/-- The `get` operation: `GET key` then deserialize (an absent key reads as
`None`, modelled `Json.null`). -/
def get (s : ValkeyState) (now : Nat) (key : String) : Except String Json :=
  if !s.connected then Except.error "Not connected to Valkey"
  else Except.ok (_deserialize (kvLookup s.kv now key))

/-- The `delete` operation. -/
def delete (s : ValkeyState) (key : String) : Except String ValkeyState :=
  if !s.connected then Except.error "Not connected to Valkey"
  else Except.ok { s with kv := s.kv.eraseP (fun p => p.1 = key) }

/-- One outcome of the `atomic_update` retry loop. -/
inductive AtomicOutcome where
  | committed (value : Json) : AtomicOutcome
  | fellThrough : AtomicOutcome

/-- The retry loop of `atomic_update` under optimistic locking.
`conflicts i` tells whether another writer touched the key between the
`WATCH` and the `EXEC` of attempt `i` (raising `WatchError` there), and
`readVal i` is the value read by attempt `i`.  The returned list is the
sequence of backoff sleeps, in seconds.  A loop that runs out of attempts
without a conflict on its last attempt falls through (Python returns
`None`); exhausting all attempts on conflicts raises `ValueError`. -/
def atomicLoop (conflicts : Nat → Bool) (readVal : Nat → Json) (updateFn : Json → Json)
    (maxRetries : Nat) : Nat → List ℚ → Except String AtomicOutcome × List ℚ
  | attempt, sleeps =>
    if _h : attempt < maxRetries then
      if conflicts attempt then
        if attempt = maxRetries - 1 then
          (Except.error "Too many concurrent updates, try again later", sleeps)
        else
          atomicLoop conflicts readVal updateFn maxRetries (attempt + 1)
            (sleeps ++ [(1 : ℚ) / 10 * (attempt + 1)])
      else (Except.ok (AtomicOutcome.committed (updateFn (readVal attempt))), sleeps)
    else (Except.ok AtomicOutcome.fellThrough, sleeps)
termination_by attempt _ => maxRetries - attempt

/-- The `atomic_update` operation (result value and backoff sleeps only;
the committed write is `SET key serialize(new)` plus an optional
`EXPIRE`). -/
def atomic_update (s : ValkeyState) (conflicts : Nat → Bool) (readVal : Nat → Json)
    (updateFn : Json → Json) (maxRetries : Nat := 3) :
    Except String (Except String AtomicOutcome × List ℚ) :=
  if !s.connected then Except.error "Not connected to Valkey"
  else Except.ok (atomicLoop conflicts readVal updateFn maxRetries 0 [])

/-- The `acquire_lock` operation: `SET lock:{key} token EX timeout NX`,
where `token` is the fresh `uuid4` value.  Returns whether the lock was
acquired, with the updated server state. -/
def acquire_lock (s : ValkeyState) (now : Nat) (lock_key : String) (token : String)
    (timeout : Nat := 10) : Except String (Bool × ValkeyState) :=
  if !s.connected then Except.error "Not connected to Valkey"
  else
    match kvLookup s.kv now ("lock:" ++ lock_key) with
    | some _ => Except.ok (false, s)
    | none =>
      Except.ok (true,
        { s with kv := kvSet s.kv ("lock:" ++ lock_key) ⟨token, some (now + timeout)⟩ })

/-- The `release_lock` operation: unconditional `DEL lock:{key}`. -/
def release_lock (s : ValkeyState) (lock_key : String) : Except String ValkeyState :=
  if !s.connected then Except.error "Not connected to Valkey"
  else Except.ok { s with kv := s.kv.eraseP (fun p => p.1 = "lock:" ++ lock_key) }

/-- The `create_vector_index` operation: a no-op when the index already
exists, otherwise it registers a FLAT/COSINE index with the declared
dimensionality over the `doc:` prefix. -/
def create_vector_index (s : ValkeyState) (index_name : String)
    (vector_dimensions : Nat) : Except String ValkeyState :=
  if !s.connected then Except.error "Not connected to Valkey"
  else if (s.indexSpecs.find? (fun p => p.1 = index_name)).isSome then Except.ok s
  else Except.ok { s with indexSpecs := (index_name, vector_dimensions) :: s.indexSpecs }

/-- The `add_vector` operation: `HSET doc:{key} vector content tag`.  As in
the source, the vector's length is never compared with the index's declared
dimensionality, and `index_name` is not consulted at all. -/
def add_vector (s : ValkeyState) (index_name : String) (key : String)
    (vector : List ℚ) (content : String) (tag : String) : Except String ValkeyState :=
  if !s.connected then Except.error "Not connected to Valkey"
  else
    let doc : VDoc := ⟨vector, content, tag⟩
    let rest := s.docs.eraseP (fun p => p.1 = "doc:" ++ key)
    Except.ok { s with docs := ("doc:" ++ key, doc) :: rest }

end ValkeyService

/-- Dot product of two rational vectors (missing coordinates count as 0,
matching how a fixed-dimension engine never sees ragged data). -/
def dot (a b : List ℚ) : ℚ := (a.zipWith (fun x y => x * y) b).sum

/-- Squared Euclidean norm. -/
def normSq (a : List ℚ) : ℚ := dot a a

/-- Exact sort key equivalent to the cosine similarity `d / sqrt N`: the
strictly monotone image `sign · square`.  Sorting descending by this key
is sorting descending by cosine similarity, i.e. ascending by the engine's
cosine distance. -/
def simKey (d N : ℚ) : ℚ :=
  if N = 0 then 0 else if 0 ≤ d then d ^ 2 / N else -(d ^ 2 / N)

/-- One KNN search hit: document id, content, and the exact components of
its score against the query (dot product, and squared product of norms).
The engine's reported score is the cosine distance
`1 - simNum / sqrt simDenSq`. -/
structure SearchHit where
  id : String
  content : String
  simNum : ℚ
  simDenSq : ℚ
deriving DecidableEq

/-- Sort key of a hit. -/
def SearchHit.key (h : SearchHit) : ℚ := simKey h.simNum h.simDenSq

/-- Hit ordering used by the engine: ascending cosine distance, i.e.
descending cosine similarity. -/
def hitLE (h1 h2 : SearchHit) : Prop := h2.key ≤ h1.key

instance : DecidableRel hitLE := fun h1 h2 => by
  unfold hitLE; infer_instance

namespace ValkeyService

/-- The `vector_knn_search` operation, as executed by the engine for the
query `(@tag:{tag})=>[KNN top_k @vector $vec as score]` with
`sort_by score` (ascending) and `paging 0 top_k` on a COSINE index:
filter the stored documents by exact tag, order by ascending cosine
distance to the query, and return the first `top_k`. -/
def vector_knn_search (s : ValkeyState) (index_name : String)
    (query_vector : List ℚ) (top_k : Nat) (tag : String) :
    Except String (List SearchHit) :=
  if !s.connected then Except.error "Not connected to Valkey"
  else
    Except.ok
      (((s.docs.filter (fun p => p.2.tag = tag)).map
          (fun p => SearchHit.mk p.1 p.2.content (dot query_vector p.2.vector)
            (normSq query_vector * normSq p.2.vector))).insertionSort hitLE |>.take top_k)

end ValkeyService

/-- A message held by the in-process `ShortTermMemory`
(`src/services/llm/memory/short_term.py`); timestamps are wall-clock
instants modelled as integers. -/
structure STMessage where
  content : String
  author_id : String
  timestamp : Int
  channel_id : String
  attachments : List Json
  mentions : List Json
  is_bot : Bool

/-- The in-process short-term memory: per-channel bounded deques with TTL
eviction.  `ttl` is the `timedelta(minutes=ttl_minutes)` in the same time
unit as message timestamps. -/
structure ShortTermMemory where
  max_messages : Nat
  ttl : Int
  channel_messages : List (String × List STMessage)

/-- Lookup in a Python dict modelled as an association list. -/
def mapLookup (m : List (String × α)) (k : String) : Option α :=
  (m.find? (fun p => p.1 = k)).map (fun p => p.2)

/-- Update (or insert) a key in a Python dict modelled as an association
list. -/
def mapSet (m : List (String × α)) (k : String) (v : α) : List (String × α) :=
  (k, v) :: m.eraseP (fun p => p.1 = k)

/-- Append to a `deque(maxlen=maxlen)`: once at capacity, the oldest
element (the front) is dropped. -/
def dequeAppend (maxlen : Nat) (b : List α) (x : α) : List α :=
  if maxlen = 0 then []
  else if b.length < maxlen then b ++ [x]
  else (b.drop (b.length + 1 - maxlen)) ++ [x]

namespace ShortTermMemory

/-- Is a message expired?  The source uses the strict comparison
`current_time - timestamp > ttl`. -/
def isExpired (now ttl : Int) (m : STMessage) : Bool := ttl < now - m.timestamp

/-- The cleanup pass on one channel's buffer: pop from the front while the
front message is expired. -/
def cleanupBuf (now ttl : Int) (b : List STMessage) : List STMessage :=
  b.dropWhile (isExpired now ttl)

/-- The `_cleanup_expired` method on one channel. -/
def _cleanup_expired (s : ShortTermMemory) (channel_id : String) (now : Int) :
    ShortTermMemory :=
  match mapLookup s.channel_messages channel_id with
  | none => s
  | some b =>
    { s with channel_messages :=
        mapSet s.channel_messages channel_id (cleanupBuf now s.ttl b) }

/-- The `add_message` method: create the channel's deque if missing, run
cleanup, then append. -/
def add_message (s : ShortTermMemory) (message : STMessage) (now : Int) :
    ShortTermMemory :=
  let s1 :=
    match mapLookup s.channel_messages message.channel_id with
    | some _ => s
    | none =>
      { s with channel_messages := mapSet s.channel_messages message.channel_id [] }
  let s2 := _cleanup_expired s1 message.channel_id now
  let b := (mapLookup s2.channel_messages message.channel_id).getD []
  let b2 := dequeAppend s2.max_messages b message
  { s2 with channel_messages := mapSet s2.channel_messages message.channel_id b2 }

/-- Python's `xs[-limit:]` tail slice for an arbitrary integer `limit`. -/
def pyTailSlice (limit : Int) (xs : List α) : List α :=
  let n : Int := xs.length
  let start : Int := if (-limit) < 0 then max (n + -limit) 0 else min (-limit) n
  xs.drop start.toNat

/-- The `get_channel_context` method: returns the channel's non-expired
messages (most recent `limit` of them when `limit` is truthy) and the
state after its cleanup side effect. -/
def get_channel_context (s : ShortTermMemory) (channel_id : String)
    (limit : Option Int) (now : Int) : List STMessage × ShortTermMemory :=
  match mapLookup s.channel_messages channel_id with
  | none => ([], s)
  | some _ =>
    let s2 := _cleanup_expired s channel_id now
    let messages := (mapLookup s2.channel_messages channel_id).getD []
    let messages :=
      match limit with
      | some l => if l ≠ 0 then pyTailSlice l messages else messages
      | none => messages
    (messages, s2)

end ShortTermMemory

/-- One content part of a persisted conversation message
(`src/services/ai/memory/short_term.py`). -/
structure MultimodalContent where
  type : String
  content : Json
  url : Option String

/-- The `to_dict` serialization of a content part. -/
def MultimodalContent.to_dict (c : MultimodalContent) : Json :=
  Json.obj [("type", Json.str c.type), ("content", c.content),
    ("url", match c.url with | some u => Json.str u | none => Json.null)]

/-- A persisted conversation message; `timestamp` is `datetime.now().timestamp()`
modelled in whole seconds. -/
structure CHMessage where
  user_id : String
  content : List MultimodalContent
  timestamp : Int
  is_bot : Bool
  channel_id : String

/-- The `to_dict` serialization of a persisted message. -/
def CHMessage.to_dict (m : CHMessage) : Json :=
  Json.obj [("user_id", Json.str m.user_id),
    ("content", Json.arr (m.content.map MultimodalContent.to_dict)),
    ("timestamp", Json.num m.timestamp),
    ("is_bot", Json.bool m.is_bot),
    ("channel_id", Json.str m.channel_id)]

/-- Configuration of `ConversationHistory`: buffer bound and TTL in
seconds. -/
structure ConversationHistory where
  max_messages : Nat
  ttl : Nat

namespace ConversationHistory

/-- Redis key of a channel's conversation buffer. -/
def _get_key (channel_id : String) : String := "conversation:" ++ channel_id

/-- The `get_history` method: read the key, and when the value is truthy
decode it with `json.loads`; every failure path yields `[]`. -/
def get_history (ch : ConversationHistory) (s : ValkeyState) (now : Nat)
    (channel_id : String) : List Json :=
  match ValkeyService.get s now (_get_key channel_id) with
  | Except.error _ => []
  | Except.ok data =>
    if data.truthy then
      match data with
      | Json.str raw =>
        match jsonLoads raw with
        | some (Json.arr l) => l
        | _ => []
      | _ => []
    else []

/-- The `add_message` method: append the serialized message to the decoded
history, keep the last `max_messages`, and re-`SET` the buffer key with a
fresh full TTL (`ttl=self.ttl`). -/
def add_message (ch : ConversationHistory) (s : ValkeyState) (now : Nat)
    (message : CHMessage) : Except String ValkeyState :=
  let key := _get_key message.channel_id
  let messages := get_history ch s now message.channel_id ++ [message.to_dict]
  let messages :=
    if ch.max_messages < messages.length
    then messages.drop (messages.length - ch.max_messages) else messages
  ValkeyService.set s now key (Json.str (jsonDumps (Json.arr messages))) (some ch.ttl)

end ConversationHistory

namespace MemoryService

/-- Key construction for memory records. -/
def _get_key (category : String) (memory_id : Option String) : String :=
  match memory_id with
  | some i => "memory:" ++ category ++ ":" ++ i
  | none => "memory:" ++ category

/-- The serialized record written by `create_memory` for a fresh id and
timestamp. -/
def memoryData (memory_id : String) (content : Json) (metadata : Option Json)
    (timestamp : String) : Json :=
  Json.obj [("id", Json.str memory_id), ("content", content),
    ("metadata", metadata.getD (Json.obj [])), ("timestamp", Json.str timestamp)]

/-- The `create_memory` method: serialize the record itself with
`json.dumps` and store that string through `ValkeyService.set` (which
serializes once more); `memory_id` stands for the fresh `uuid4` and
`timestamp` for `datetime.now().isoformat()`. -/
def create_memory (s : ValkeyState) (now : Nat) (category : String) (content : Json)
    (metadata : Option Json) (memory_id : String) (timestamp : String) :
    Except String (String × ValkeyState) :=
  match ValkeyService.set s now (_get_key category (some memory_id))
      (Json.str (jsonDumps (memoryData memory_id content metadata timestamp))) none with
  | Except.ok s2 => Except.ok (memory_id, s2)
  | Except.error e => Except.error e

/-- The second deserialization applied by `MemoryService._deserialize` to a
value already decoded once by `ValkeyService.get`.  In Python a non-string
argument makes `json.loads` raise `TypeError` (never reached: records are
always stored as strings). -/
def _deserialize (v : Json) : Except String Json :=
  match v with
  | Json.str s =>
    Except.ok (match jsonLoads s with | some j => j | none => Json.str s)
  | _ => Except.error "TypeError: the JSON object must be str"

/-- The `get_memories` method: enumerate the live keys under
`memory:{category}:`, read each, and decode the truthy values a second
time. -/
def get_memories (s : ValkeyState) (now : Nat) (category : String) :
    Except String (List Json) :=
  if !s.connected then Except.error "Not connected to Valkey"
  else
    (kvKeysUnder s.kv now (_get_key category none ++ ":")).foldrM
      (fun k acc =>
        match ValkeyService.get s now k with
        | Except.error e => Except.error e
        | Except.ok data =>
          if data.truthy then
            match _deserialize data with
            | Except.ok j => Except.ok (j :: acc)
            | Except.error e => Except.error e
          else Except.ok acc)
      []

/-- The `wipe_category` method: delete every live key under the category's
stem. -/
def wipe_category (s : ValkeyState) (now : Nat) (category : String) :
    Except String ValkeyState :=
  if !s.connected then Except.error "Not connected to Valkey"
  else
    let stem := _get_key category none ++ ":"
    let kept := s.kv.filter (fun p => !(strStem stem p.1 && !p.2.expired now))
    Except.ok { s with kv := kept }

end MemoryService

/-! ### Lemmas: decimal digits -/

theorem digitChar_isDigit {d : Nat} (h : d < 10) : (Nat.digitChar d).isDigit = true := by
  interval_cases d <;> decide

theorem digitChar_toNat {d : Nat} (h : d < 10) : (Nat.digitChar d).toNat = 48 + d := by
  interval_cases d <;> decide

theorem hexVal_digitChar {d : Nat} (h : d < 16) : hexVal (Nat.digitChar d) = d := by
  interval_cases d <;> decide

theorem mem_natCharsAux_isDigit {f m : Nat} {c : Char} (hc : c ∈ natCharsAux f m) :
    c.isDigit = true := by
  induction f generalizing m with
  | zero => simp [natCharsAux] at hc
  | succ f ih =>
    by_cases hm : m = 0
    · simp [natCharsAux, hm] at hc
    · rw [natCharsAux, if_neg hm] at hc
      rcases List.mem_append.mp hc with h | h
      · exact ih h
      · rcases List.mem_singleton.mp h with rfl
        exact digitChar_isDigit (Nat.mod_lt _ (by norm_num))

theorem mem_natChars_isDigit {m : Nat} {c : Char} (hc : c ∈ natChars m) :
    c.isDigit = true := by
  by_cases hm : m = 0
  · simp [natChars, hm] at hc; subst hc; decide
  · rw [natChars, if_neg hm] at hc; exact mem_natCharsAux_isDigit hc

theorem parseNat_append_digit (ds : List Char) (c : Char) :
    parseNat (ds ++ [c]) = parseNat ds * 10 + (c.toNat - 48) := by
  simp [parseNat, List.foldl_append]

theorem parseNat_natCharsAux {f m : Nat} (h : m ≤ f) : parseNat (natCharsAux f m) = m := by
  induction f generalizing m with
  | zero =>
    interval_cases m
    simp [natCharsAux, parseNat]
  | succ f ih =>
    by_cases hm : m = 0
    · subst hm; simp [natCharsAux, parseNat]
    · rw [natCharsAux, if_neg hm, parseNat_append_digit,
        ih (by omega : m / 10 ≤ f), digitChar_toNat (Nat.mod_lt _ (by norm_num))]
      omega

theorem parseNat_natChars (m : Nat) : parseNat (natChars m) = m := by
  by_cases hm : m = 0
  · subst hm; simp [natChars, parseNat]
  · rw [natChars, if_neg hm]; exact parseNat_natCharsAux le_rfl

theorem natChars_ne_nil (m : Nat) : natChars m ≠ [] := by
  by_cases hm : m = 0
  · simp [natChars, hm]
  · rw [natChars, if_neg hm]
    obtain ⟨f, rfl⟩ : ∃ f, m = f + 1 := ⟨m - 1, by omega⟩
    rw [natCharsAux, if_neg hm]
    simp

theorem not_special_of_isDigit {c : Char} (h : c.isDigit = true) :
    c ≠ 'n' ∧ c ≠ 't' ∧ c ≠ 'f' ∧ c ≠ '"' ∧ c ≠ '[' ∧ c ≠ '\x7b' ∧ c ≠ '-' := by
  refine ⟨?_, ?_, ?_, ?_, ?_, ?_, ?_⟩ <;> (rintro rfl; exact absurd h (by decide))

theorem goodStart_of_isDigit {c : Char} (h : c.isDigit = true) : goodStart c = true := by
  simp only [goodStart, isWsChar, Bool.and_eq_true, Bool.not_eq_true',
    Bool.or_eq_false_iff, decide_eq_false_iff_not]
  and_intros <;> (rintro rfl; exact absurd h (by decide))

theorem boundary_head_not_digit {c : Char} {cs : List Char}
    (h : boundary (c :: cs) = true) : c.isDigit = false := by
  rcases Bool.or_eq_true_iff.mp h with h1 | h1
  · rcases Bool.or_eq_true_iff.mp h1 with h2 | h2 <;>
      (rw [decide_eq_true_iff.mp h2]; decide)
  · rw [decide_eq_true_iff.mp h1]; decide

theorem takeWhile_digits {ds rest : List Char} (h1 : ∀ c ∈ ds, c.isDigit = true)
    (h2 : boundary rest = true) :
    (ds ++ rest).takeWhile Char.isDigit = ds := by
  induction ds with
  | nil =>
    cases rest with
    | nil => simp
    | cons c cs => simp [List.takeWhile_cons, boundary_head_not_digit h2]
  | cons d ds ih =>
    simp [List.takeWhile_cons, h1 d (by simp), ih (fun c hc => h1 c (by simp [hc]))]

theorem dropWhile_digits {ds rest : List Char} (h1 : ∀ c ∈ ds, c.isDigit = true)
    (h2 : boundary rest = true) :
    (ds ++ rest).dropWhile Char.isDigit = rest := by
  induction ds with
  | nil =>
    cases rest with
    | nil => simp
    | cons c cs => simp [List.dropWhile_cons, boundary_head_not_digit h2]
  | cons d ds ih =>
    simp [List.dropWhile_cons, h1 d (by simp), ih (fun c hc => h1 c (by simp [hc]))]

theorem span_digits {ds rest : List Char} (h1 : ∀ c ∈ ds, c.isDigit = true)
    (h2 : boundary rest = true) :
    (ds ++ rest).span Char.isDigit = (ds, rest) := by
  rw [List.span_eq_take_drop, takeWhile_digits h1 h2, dropWhile_digits h1 h2]

/-! ### Lemmas: string-literal escaping round-trips -/

theorem escChar_length_pos (c : Char) : 1 ≤ (escChar c).length := by
  unfold escChar
  split <;> try simp
  split <;> try simp
  split <;> try simp
  split <;> try simp
  split <;> try simp
  split <;> try simp
  split <;> try simp
  split <;> simp

theorem escString_length_ge (L : List Char) : L.length ≤ (escString L).length := by
  induction L with
  | nil => simp [escString]
  | cons c L ih =>
    have := escChar_length_pos c
    simp only [escString, List.flatMap_cons, List.length_append, List.length_cons] at *
    omega

theorem parseStrAux_round (L : List Char) : ∀ f (rest : List Char), L.length + 1 ≤ f →
    parseStrAux f (escString L ++ '"' :: rest) = some (L, rest) := by
  induction L with
  | nil =>
    intro f rest hf
    obtain ⟨f2, rfl⟩ : ∃ f2, f = f2 + 1 := ⟨f - 1, by omega⟩
    simp [escString, parseStrAux]
  | cons c L ih =>
    intro f rest hf
    obtain ⟨f2, rfl⟩ : ∃ f2, f = f2 + 1 := ⟨f - 1, by omega⟩
    have hL : L.length + 1 ≤ f2 := by simp at hf; omega
    have ihL := ih f2 rest hL
    show parseStrAux (f2 + 1) (escChar c ++ escString L ++ '"' :: rest) = _
    by_cases h1 : c = '"'
    · subst h1; simp [escChar, parseStrAux, escDecode, ihL]
    · by_cases h2 : c = '\\'
      · subst h2; simp [escChar, parseStrAux, escDecode, ihL]
      · by_cases h3 : c = '\x08'
        · subst h3; simp [escChar, parseStrAux, escDecode, ihL]
        · by_cases h4 : c = '\x09'
          · subst h4; simp [escChar, parseStrAux, escDecode, ihL]
          · by_cases h5 : c = '\x0a'
            · subst h5; simp [escChar, parseStrAux, escDecode, ihL]
            · by_cases h6 : c = '\x0c'
              · subst h6; simp [escChar, parseStrAux, escDecode, ihL]
              · by_cases h7 : c = '\x0d'
                · subst h7; simp [escChar, parseStrAux, escDecode, ihL]
                · by_cases h8 : c.toNat < 32
                  · rw [escChar, if_neg h1, if_neg h2, if_neg h3, if_neg h4,
                      if_neg h5, if_neg h6, if_neg h7, if_pos h8]
                    have hdiv : c.toNat / 16 < 16 := by omega
                    have hmod : c.toNat % 16 < 16 := by omega
                    have hsum : hexVal '0' * 4096 + hexVal '0' * 256 +
                        c.toNat / 16 * 16 + c.toNat % 16 = c.toNat := by
                      rw [show hexVal '0' = 0 from by decide]; omega
                    simp [parseStrAux, ihL, hexVal_digitChar hdiv,
                      hexVal_digitChar hmod, hsum, Char.ofNat_toNat]
                  · rw [escChar, if_neg h1, if_neg h2, if_neg h3, if_neg h4,
                      if_neg h5, if_neg h6, if_neg h7, if_neg h8]
                    simp [parseStrAux, ihL, h1, h2]

/-! ### Lemmas: whitespace skipping and render head shapes -/

theorem skipWs_cons_not_ws {c : Char} {cs : List Char} (h : isWsChar c = false) :
    skipWs (c :: cs) = c :: cs := by
  simp [skipWs, List.dropWhile_cons, h]

theorem skipWs_cons_ws {c : Char} {cs : List Char} (h : isWsChar c = true) :
    skipWs (c :: cs) = skipWs cs := by
  simp [skipWs, List.dropWhile_cons, h]

theorem goodStart_not_ws {c : Char} (h : goodStart c = true) : isWsChar c = false := by
  simp only [goodStart, Bool.and_eq_true, Bool.not_eq_true'] at h
  exact h.1.1.1.1

theorem renderJson_head (v : Json) :
    ∃ c cs, renderJson v = c :: cs ∧ goodStart c = true := by
  cases v with
  | null => exact ⟨'n', _, rfl, by decide⟩
  | bool b => cases b with
    | true => exact ⟨'t', _, rfl, by decide⟩
    | false => exact ⟨'f', _, rfl, by decide⟩
  | num n =>
    rw [renderJson]
    by_cases hn : n < 0
    · exact ⟨'-', _, by rw [intChars, if_pos hn], by decide⟩
    · rw [intChars, if_neg hn]
      rcases hcs : natChars n.natAbs with _ | ⟨c, cs⟩
      · exact absurd hcs (natChars_ne_nil _)
      · exact ⟨c, cs, rfl,
          goodStart_of_isDigit (mem_natChars_isDigit (by rw [hcs]; simp))⟩
  | str s => exact ⟨'"', _, rfl, by decide⟩
  | arr xs => exact ⟨'[', _, rfl, by decide⟩
  | obj fs => exact ⟨'\x7b', _, rfl, by decide⟩

theorem skipWs_renderJson (v : Json) (rest : List Char) :
    skipWs (renderJson v ++ rest) = renderJson v ++ rest := by
  obtain ⟨c, cs, hh, hg⟩ := renderJson_head v
  rw [hh, List.cons_append, skipWs_cons_not_ws (goodStart_not_ws hg)]

theorem goodStart_ne_rbracket {c : Char} (h : goodStart c = true) : c ≠ ']' := by
  simp only [goodStart, Bool.and_eq_true, Bool.not_eq_true', decide_eq_false_iff_not] at h
  exact h.1.1.1.2

theorem goodStart_ne_rbrace {c : Char} (h : goodStart c = true) : c ≠ '\x7d' := by
  simp only [goodStart, Bool.and_eq_true, Bool.not_eq_true', decide_eq_false_iff_not] at h
  exact h.1.2

theorem jsonFuel_pos (v : Json) : 1 ≤ jsonFuel v := by
  cases v <;> simp [jsonFuel]

theorem elemsFuel_pair (v w : Json) (vs : List Json) :
    elemsFuel (v :: w :: vs) = 1 + jsonFuel v + elemsFuel (w :: vs) := by
  rw [elemsFuel]
  simp

theorem fieldsFuel_pair (k : String) (v : Json) (kv2 : String × Json)
    (fs : List (String × Json)) :
    fieldsFuel ((k, v) :: kv2 :: fs) = 1 + jsonFuel v + fieldsFuel (kv2 :: fs) := by
  rw [fieldsFuel]
  simp

theorem elemsFuel_pos (xs : List Json) : 1 ≤ elemsFuel xs := by
  cases xs with
  | nil => simp [elemsFuel]
  | cons v vs =>
    cases vs with
    | nil => simp [elemsFuel]
    | cons w vs => rw [elemsFuel_pair]; omega

theorem fieldsFuel_pos (fs : List (String × Json)) : 1 ≤ fieldsFuel fs := by
  cases fs with
  | nil => simp [fieldsFuel]
  | cons kv fs =>
    rcases kv with ⟨k, v⟩
    cases fs with
    | nil => simp [fieldsFuel]
    | cons kv2 fs => rw [fieldsFuel_pair]; omega

theorem mk_toList (s : String) : String.mk s.toList = s := rfl

theorem renderElems_pair (v w : Json) (vs : List Json) :
    renderElems (v :: w :: vs) = renderJson v ++ (',' :: ' ' :: renderElems (w :: vs)) := by
  rw [renderElems]
  simp

theorem renderFields_pair (k : String) (v : Json) (kv2 : String × Json)
    (fs : List (String × Json)) :
    renderFields ((k, v) :: kv2 :: fs) =
      ('"' :: (escString k.toList ++ ['"'])) ++ (':' :: ' ' :: renderJson v)
        ++ (',' :: ' ' :: renderFields (kv2 :: fs)) := by
  rw [renderFields]
  simp

theorem renderElems_head (v : Json) (vs : List Json) :
    ∃ c cs, renderElems (v :: vs) = c :: cs ∧ goodStart c = true := by
  obtain ⟨c, cs, hh, hg⟩ := renderJson_head v
  cases vs with
  | nil => exact ⟨c, cs, by rw [renderElems, hh], hg⟩
  | cons w vs =>
    exact ⟨c, cs ++ (',' :: ' ' :: renderElems (w :: vs)),
      by rw [renderElems_pair, hh, List.cons_append], hg⟩

theorem skipWs_elems (xs : List Json) (tail : List Char) :
    skipWs (renderElems xs ++ ']' :: tail) = renderElems xs ++ ']' :: tail := by
  cases xs with
  | nil => rw [renderElems]; simp only [List.nil_append]; exact skipWs_cons_not_ws (by decide)
  | cons v vs =>
    obtain ⟨c, cs, hh, hg⟩ := renderElems_head v vs
    rw [hh, List.cons_append, skipWs_cons_not_ws (goodStart_not_ws hg)]

theorem renderFields_head (kv : String × Json) (fs : List (String × Json)) :
    ∃ cs, renderFields (kv :: fs) = '"' :: cs := by
  rcases kv with ⟨k, v⟩
  cases fs with
  | nil => exact ⟨_, by rw [renderFields, List.cons_append]⟩
  | cons kv2 fs =>
    exact ⟨_, by rw [renderFields_pair, List.cons_append, List.cons_append]⟩

theorem skipWs_fields (fs : List (String × Json)) (tail : List Char) :
    skipWs (renderFields fs ++ '\x7d' :: tail) = renderFields fs ++ '\x7d' :: tail := by
  cases fs with
  | nil => rw [renderFields]; simp only [List.nil_append]; exact skipWs_cons_not_ws (by decide)
  | cons kv fs =>
    obtain ⟨cs, hh⟩ := renderFields_head kv fs
    rw [hh, List.cons_append, skipWs_cons_not_ws (by decide)]

/-! ### The parser inverts the renderer -/

theorem parse_render (f : Nat) :
    (∀ (v : Json) (rest input : List Char), jsonFuel v ≤ f → boundary rest = true →
      skipWs input = renderJson v ++ rest → parseVal f input = some (v, rest)) ∧
    (∀ (xs : List Json) (rest input : List Char), elemsFuel xs ≤ f →
      skipWs input = renderElems xs ++ ']' :: rest → parseElems f input = some (xs, rest)) ∧
    (∀ (fs : List (String × Json)) (rest input : List Char), fieldsFuel fs ≤ f →
      skipWs input = renderFields fs ++ '\x7d' :: rest →
      parseFields f input = some (fs, rest)) := by
  induction f with
  | zero =>
    refine ⟨fun v _ _ hf => absurd hf (by have := jsonFuel_pos v; omega),
      fun xs _ _ hf => absurd hf (by have := elemsFuel_pos xs; omega),
      fun fs _ _ hf => absurd hf (by have := fieldsFuel_pos fs; omega)⟩
  | succ f ih =>
    obtain ⟨ihv, ihe, ihf⟩ := ih
    refine ⟨?_, ?_, ?_⟩
    · intro v rest input hfuel hb hin
      cases v with
      | null =>
        rw [renderJson] at hin
        simp only [List.cons_append, List.nil_append] at hin
        simp [parseVal, hin]
      | bool b =>
        cases b <;>
          (rw [renderJson] at hin;
           simp only [List.cons_append, List.nil_append] at hin;
           simp [parseVal, hin])
      | num n =>
        rw [renderJson, intChars] at hin
        have hdigits : ∀ c ∈ natChars n.natAbs, c.isDigit = true :=
          fun c hc => mem_natChars_isDigit hc
        have htake := takeWhile_digits hdigits hb
        have hdrop := dropWhile_digits hdigits hb
        rcases hnat : natChars n.natAbs with _ | ⟨c, cs⟩
        · exact absurd hnat (natChars_ne_nil _)
        rw [hnat] at htake hdrop
        have hcdig : c.isDigit = true :=
          mem_natChars_isDigit (by rw [hnat]; exact List.mem_cons_self _ _)
        by_cases hn : n < 0
        · rw [if_pos hn, hnat, List.cons_append] at hin
          have habs : (-(parseNat (c :: cs) : Int)) = n := by
            rw [← hnat, parseNat_natChars]; omega
          simp only [List.cons_append] at htake hdrop
          simp [parseVal, hin, List.span_eq_take_drop, htake, hdrop, habs, hcdig]
        · rw [if_neg hn, hnat, List.cons_append] at hin
          obtain ⟨hn1, hn2, hn3, hn4, hn5, hn6, hn7⟩ := not_special_of_isDigit hcdig
          have hpn : ((parseNat (c :: cs) : Int)) = n := by
            rw [← hnat, parseNat_natChars]; omega
          simp only [List.cons_append] at htake hdrop
          simp [parseVal, hin, hn1, hn2, hn3, hn4, hn5, hn6, hn7, hcdig,
            List.span_eq_take_drop, htake, hdrop, hpn]
      | str s =>
        rw [renderJson] at hin
        simp only [List.cons_append, List.append_assoc, List.singleton_append] at hin
        have hlen : s.toList.length + 1 ≤ (escString s.toList ++ '"' :: rest).length + 1 := by
          have := escString_length_ge s.toList
          simp only [List.length_append, List.length_cons]
          omega
        have hrt := parseStrAux_round s.toList _ rest hlen
        have hrt2 : parseStrAux ((escString s.data ++ '"' :: rest).length + 1)
            (escString s.data ++ '"' :: rest) = some (s.data, rest) := hrt
        simp [parseVal, hin, hrt, hrt2, mk_toList, -List.length_append, -List.length_cons]
      | arr xs =>
        rw [renderJson] at hin
        simp only [List.cons_append, List.append_assoc, List.singleton_append] at hin
        have hE : parseElems f (renderElems xs ++ ']' :: rest) = some (xs, rest) := by
          apply ihe xs rest _ (by rw [jsonFuel] at hfuel; omega) (skipWs_elems xs rest)
        simp [parseVal, hin, hE]
      | obj fs =>
        rw [renderJson] at hin
        simp only [List.cons_append, List.append_assoc, List.singleton_append] at hin
        have hF : parseFields f (renderFields fs ++ '\x7d' :: rest) = some (fs, rest) := by
          apply ihf fs rest _ (by rw [jsonFuel] at hfuel; omega) (skipWs_fields fs rest)
        simp [parseVal, hin, hF]
    · intro xs rest input hfuel hin
      cases xs with
      | nil =>
        rw [renderElems] at hin
        simp only [List.nil_append] at hin
        simp [parseElems, hin]
      | cons v vs =>
        obtain ⟨c, cs, hh, hg⟩ := renderJson_head v
        have hcb : (c = ']') = False := eq_false (goodStart_ne_rbracket hg)
        cases vs with
        | nil =>
          have hvfuel : jsonFuel v ≤ f := by
            rw [elemsFuel] at hfuel
            omega
          rw [renderElems, hh, List.cons_append] at hin
          have hpv : parseVal f (c :: (cs ++ ']' :: rest)) = some (v, ']' :: rest) := by
            apply ihv v (']' :: rest) _ hvfuel (by rfl)
            rw [skipWs_cons_not_ws (goodStart_not_ws hg), ← List.cons_append, ← hh]
          simp [parseElems, hin, hcb, hpv, skipWs_cons_not_ws (show isWsChar ']' = false by decide)]
        | cons w vs =>
          have hvfuel : jsonFuel v ≤ f := by
            rw [elemsFuel_pair] at hfuel
            have := elemsFuel_pos (w :: vs)
            omega
          rw [renderElems_pair, hh] at hin
          simp only [List.cons_append, List.append_assoc, List.cons_append] at hin
          have hrest2 : boundary (',' :: ' ' :: (renderElems (w :: vs) ++ ']' :: rest)) = true := by
            rfl
          have hpv : parseVal f (c :: (cs ++ (',' :: ' ' :: (renderElems (w :: vs) ++ ']' :: rest)))) =
              some (v, ',' :: ' ' :: (renderElems (w :: vs) ++ ']' :: rest)) := by
            apply ihv v _ _ hvfuel hrest2
            rw [skipWs_cons_not_ws (goodStart_not_ws hg), ← List.cons_append, ← hh]
          have hE : parseElems f (' ' :: (renderElems (w :: vs) ++ ']' :: rest)) =
              some (w :: vs, rest) := by
            apply ihe (w :: vs) rest _
              (by rw [elemsFuel_pair] at hfuel; have := jsonFuel_pos v; omega)
            rw [skipWs_cons_ws (by decide)]
            exact skipWs_elems (w :: vs) rest
          simp [parseElems, hin, hcb, hpv, hE,
            skipWs_cons_not_ws (show isWsChar ',' = false by decide)]
    · intro fs rest input hfuel hin
      cases fs with
      | nil =>
        rw [renderFields] at hin
        simp only [List.nil_append] at hin
        simp [parseFields, hin]
      | cons kv fs =>
        rcases kv with ⟨k, v⟩
        obtain ⟨c, cs, hh, hg⟩ := renderJson_head v
        cases fs with
        | nil =>
          have hvfuel : jsonFuel v ≤ f := by
            rw [fieldsFuel] at hfuel
            omega
          rw [renderFields, hh] at hin
          simp only [List.cons_append, List.append_assoc, List.singleton_append,
            List.nil_append] at hin
          have hklen : k.toList.length + 1 ≤
              (escString k.toList ++ '"' :: (':' :: ' ' :: (c :: (cs ++ '\x7d' :: rest)))).length + 1 := by
            have := escString_length_ge k.toList
            simp only [List.length_append, List.length_cons]
            omega
          have hkey := parseStrAux_round k.toList _
            (':' :: ' ' :: (c :: (cs ++ '\x7d' :: rest))) hklen
          have hkey2 : parseStrAux
              ((escString k.data ++ '"' :: ':' :: ' ' :: c :: (cs ++ '\x7d' :: rest)).length + 1)
              (escString k.data ++ '"' :: ':' :: ' ' :: c :: (cs ++ '\x7d' :: rest)) =
              some (k.data, ':' :: ' ' :: c :: (cs ++ '\x7d' :: rest)) := hkey
          have hpv : parseVal f (' ' :: (c :: (cs ++ '\x7d' :: rest))) =
              some (v, '\x7d' :: rest) := by
            apply ihv v ('\x7d' :: rest) _ hvfuel (by rfl)
            rw [skipWs_cons_ws (by decide), skipWs_cons_not_ws (goodStart_not_ws hg),
              ← List.cons_append, ← hh]
          simp [parseFields, hin, hkey, hkey2, hpv, mk_toList,
            -List.length_append, -List.length_cons,
            skipWs_cons_not_ws (show isWsChar ':' = false by decide),
            skipWs_cons_not_ws (show isWsChar '\x7d' = false by decide)]
        | cons kv2 fs =>
          have hvfuel : jsonFuel v ≤ f := by
            rw [fieldsFuel_pair] at hfuel
            have := fieldsFuel_pos (kv2 :: fs)
            omega
          rw [renderFields_pair, hh] at hin
          simp only [List.cons_append, List.append_assoc, List.singleton_append,
            List.nil_append] at hin
          have hklen : k.toList.length + 1 ≤
              (escString k.toList ++ '"' :: (':' :: ' ' :: (c :: (cs ++
                (',' :: ' ' :: (renderFields (kv2 :: fs) ++ '\x7d' :: rest)))))).length + 1 := by
            have := escString_length_ge k.toList
            simp only [List.length_append, List.length_cons]
            omega
          have hkey := parseStrAux_round k.toList _
            (':' :: ' ' :: (c :: (cs ++ (',' :: ' ' ::
              (renderFields (kv2 :: fs) ++ '\x7d' :: rest))))) hklen
          have hkey2 : parseStrAux
              ((escString k.data ++ '"' :: ':' :: ' ' :: c :: (cs ++ ',' :: ' ' ::
                (renderFields (kv2 :: fs) ++ '\x7d' :: rest))).length + 1)
              (escString k.data ++ '"' :: ':' :: ' ' :: c :: (cs ++ ',' :: ' ' ::
                (renderFields (kv2 :: fs) ++ '\x7d' :: rest))) =
              some (k.data, ':' :: ' ' :: c :: (cs ++ ',' :: ' ' ::
                (renderFields (kv2 :: fs) ++ '\x7d' :: rest))) := hkey
          have hrest2 : boundary (',' :: ' ' ::
              (renderFields (kv2 :: fs) ++ '\x7d' :: rest)) = true := by rfl
          have hpv : parseVal f (' ' :: (c :: (cs ++ (',' :: ' ' ::
              (renderFields (kv2 :: fs) ++ '\x7d' :: rest))))) =
              some (v, ',' :: ' ' :: (renderFields (kv2 :: fs) ++ '\x7d' :: rest)) := by
            apply ihv v _ _ hvfuel hrest2
            rw [skipWs_cons_ws (by decide), skipWs_cons_not_ws (goodStart_not_ws hg),
              ← List.cons_append, ← hh]
          have hF : parseFields f (' ' :: (renderFields (kv2 :: fs) ++ '\x7d' :: rest)) =
              some (kv2 :: fs, rest) := by
            apply ihf (kv2 :: fs) rest _
              (by rw [fieldsFuel_pair] at hfuel; have := jsonFuel_pos v; omega)
            rw [skipWs_cons_ws (by decide)]
            exact skipWs_fields (kv2 :: fs) rest
          simp [parseFields, hin, hkey, hkey2, hpv, hF, mk_toList,
            -List.length_append, -List.length_cons,
            skipWs_cons_not_ws (show isWsChar ':' = false by decide),
            skipWs_cons_not_ws (show isWsChar ',' = false by decide)]

/-! ### Fuel is bounded by the rendered length -/

theorem intChars_length_pos (n : Int) : 1 ≤ (intChars n).length := by
  rw [intChars]
  split
  · simp
  · rcases h : natChars n.natAbs with _ | _
    · exact absurd h (natChars_ne_nil _)
    · simp

theorem elemsFuel_le_render (xs : List Json)
    (h : ∀ v ∈ xs, jsonFuel v ≤ (renderJson v).length) :
    elemsFuel xs ≤ (renderElems xs).length + 1 := by
  induction xs with
  | nil => simp [elemsFuel, renderElems]
  | cons v vs ih =>
    have hv := h v (by simp)
    cases vs with
    | nil => rw [elemsFuel, renderElems]; omega
    | cons w vs =>
      have hrec := ih (fun u hu => h u (by simp [hu]))
      rw [elemsFuel_pair, renderElems_pair]
      simp only [List.length_append, List.length_cons]
      omega

theorem fieldsFuel_le_render (fs : List (String × Json))
    (h : ∀ kv ∈ fs, jsonFuel kv.2 ≤ (renderJson kv.2).length) :
    fieldsFuel fs ≤ (renderFields fs).length + 1 := by
  induction fs with
  | nil => simp [fieldsFuel, renderFields]
  | cons kv fs ih =>
    rcases kv with ⟨k, v⟩
    have hv : jsonFuel v ≤ (renderJson v).length := h (k, v) (by simp)
    cases fs with
    | nil =>
      rw [fieldsFuel, renderFields]
      simp only [List.length_append, List.length_cons]
      omega
    | cons kv2 fs =>
      have hrec := ih (fun u hu => h u (by simp [hu]))
      rw [fieldsFuel_pair, renderFields_pair]
      simp only [List.length_append, List.length_cons]
      omega

theorem json_fuel_le_aux : ∀ (n : Nat) (v : Json), sizeOf v ≤ n →
    jsonFuel v ≤ (renderJson v).length := by
  intro n
  induction n with
  | zero => intro v hv; cases v <;> simp at hv
  | succ n ih =>
    intro v hv
    cases v with
    | null => simp [jsonFuel, renderJson]
    | bool b => cases b <;> simp [jsonFuel, renderJson]
    | num m =>
      have := intChars_length_pos m
      simp only [jsonFuel, renderJson]
      omega
    | str s => simp [jsonFuel, renderJson]
    | arr xs =>
      have hmem : ∀ w ∈ xs, jsonFuel w ≤ (renderJson w).length := by
        intro w hw
        apply ih
        have h1 := List.sizeOf_lt_of_mem hw
        have h2 : sizeOf (Json.arr xs) = 1 + sizeOf xs := by simp
        omega
      have := elemsFuel_le_render xs hmem
      rw [jsonFuel, renderJson]
      simp only [List.length_cons, List.length_append]
      omega
    | obj fs =>
      have hmem : ∀ kv ∈ fs, jsonFuel kv.2 ≤ (renderJson kv.2).length := by
        intro kv hkv
        apply ih
        rcases kv with ⟨k, w⟩
        have h1 := List.sizeOf_lt_of_mem hkv
        have h2 : sizeOf (Json.obj fs) = 1 + sizeOf fs := by simp
        have h3 : sizeOf ((k, w) : String × Json) = 1 + sizeOf k + sizeOf w := by simp
        simp only at h1 ⊢
        omega
      have := fieldsFuel_le_render fs hmem
      rw [jsonFuel, renderJson]
      simp only [List.length_cons, List.length_append]
      omega

theorem json_fuel_le (v : Json) : jsonFuel v ≤ (renderJson v).length :=
  json_fuel_le_aux (sizeOf v) v le_rfl

/-! ### The serialization round-trip -/

/-- Parsing the renderer's output yields the original value: the model of
`json.loads(json.dumps(v)) == v`. -/
theorem jsonLoads_jsonDumps (v : Json) : jsonLoads (jsonDumps v) = some v := by
  have htl : (jsonDumps v).toList = renderJson v := rfl
  have hfu : jsonFuel v ≤ (renderJson v).length + 1 :=
    le_trans (json_fuel_le v) (by omega)
  have hskip : skipWs (renderJson v) = renderJson v ++ [] := by
    rw [List.append_nil]
    have h := skipWs_renderJson v []
    rwa [List.append_nil] at h
  have h := (parse_render ((renderJson v).length + 1)).1 v [] (renderJson v)
    hfu (by rfl) hskip
  rw [jsonLoads, htl, h]
  rfl

/-! ### Key-value store lemmas -/

theorem kvLookup_kvSet_self (kv : List (String × VEntry)) (now : Nat) (k : String)
    (e : VEntry) :
    kvLookup (kvSet kv k e) now k = if e.expired now then none else some e.value := by
  simp [kvLookup, kvSet, List.find?]

theorem keysUnder_eraseP_nil (kv : List (String × VEntry)) (now : Nat) (stem : String)
    (q : String × VEntry → Bool) (h : kvKeysUnder kv now stem = []) :
    kvKeysUnder (kv.eraseP q) now stem = [] := by
  rw [← List.sublist_nil, ← h]
  exact List.Sublist.map _ (List.Sublist.filter _ (List.eraseP_sublist kv))

theorem ValkeyService.set_ok (s : ValkeyState) (now : Nat) (key : String) (value : Json)
    (ttl : Option Nat) (h : s.connected = true) :
    ValkeyService.set s now key value ttl = Except.ok
      { s with kv := kvSet s.kv key (VEntry.mk (ValkeyService._serialize value) (ttl.map (fun n => now + n))) } := by
  rw [ValkeyService.set, h]
  rfl

theorem ValkeyService.get_ok (s : ValkeyState) (now : Nat) (key : String)
    (h : s.connected = true) :
    ValkeyService.get s now key =
      Except.ok (ValkeyService._deserialize (kvLookup s.kv now key)) := by
  rw [ValkeyService.get, h]
  rfl

theorem deserialize_serialize (v : Json) :
    ValkeyService._deserialize (some (ValkeyService._serialize v)) = v := by
  simp [ValkeyService._deserialize, ValkeyService._serialize, jsonLoads_jsonDumps]

/-! ### Claim C1: set/get round-trip -/

/-- C1: for every key `k` and JSON value `v`, `get(k)` after `set(k, v, ttl=None)`
on a connected `KVStore` returns a value equal to `v` (the stored string is
`json.dumps(v)` and the read applies `json.loads`, so the read value is the
serialize/deserialize normalization of `v`, which is `v` itself in the model). -/
theorem kv_get_after_set (s : ValkeyState) (now now2 : Nat) (key : String) (v : Json)
    (h : s.connected = true) :
    ∃ s2, ValkeyService.set s now key v none = Except.ok s2 ∧
      ValkeyService.get s2 now2 key = Except.ok v := by
  refine ⟨_, ValkeyService.set_ok s now key v none h, ?_⟩
  have h2 : ({ s with kv := kvSet s.kv key (VEntry.mk (ValkeyService._serialize v) (Option.map (fun n => now + n) none)) } : ValkeyState).connected = true := h
  rw [ValkeyService.get_ok _ now2 key h2, kvLookup_kvSet_self]
  simp [VEntry.expired, deserialize_serialize]

/-- Witness for C1 at a concrete store, key and value. -/
theorem kv_get_after_set_witness :
    ∃ s2, ValkeyService.set ⟨true, [], [], []⟩ 0 "k" (Json.num 7) none = Except.ok s2 ∧
      ValkeyService.get s2 3 "k" = Except.ok (Json.num 7) :=
  kv_get_after_set ⟨true, [], [], []⟩ 0 3 "k" (Json.num 7) (by decide)

/-! ### Claim C5: lock mutual exclusion -/

/-- C5: `acquire_lock` is set-if-not-exists with a self-expiring record:
when two callers race on the same free lock key and the second call happens
while the first lease is unexpired, the first call returns `true` and the
second returns `false` — exactly one acquisition succeeds. -/
theorem acquire_lock_mutual_exclusion (s : ValkeyState) (k tok1 tok2 : String)
    (t0 t1 timeout : Nat) (h : s.connected = true)
    (habs : kvLookup s.kv t0 ("lock:" ++ k) = none)
    (h01 : t0 ≤ t1) (hlease : t1 < t0 + timeout) :
    ∃ s1, ValkeyService.acquire_lock s t0 k tok1 timeout = Except.ok (true, s1) ∧
      ValkeyService.acquire_lock s1 t1 k tok2 timeout = Except.ok (false, s1) := by
  have hacq1 : ValkeyService.acquire_lock s t0 k tok1 timeout = Except.ok (true, { s with kv := kvSet s.kv ("lock:" ++ k) (VEntry.mk tok1 (some (t0 + timeout))) }) := by
    rw [ValkeyService.acquire_lock, h]
    simp [habs]
  have h2 : ({ s with kv := kvSet s.kv ("lock:" ++ k) (VEntry.mk tok1 (some (t0 + timeout))) } : ValkeyState).connected = true := h
  have hlook : kvLookup (kvSet s.kv ("lock:" ++ k) (VEntry.mk tok1 (some (t0 + timeout)))) t1 ("lock:" ++ k) = some tok1 := by
    rw [kvLookup_kvSet_self]
    simp only [VEntry.expired, decide_eq_true_eq]
    rw [if_neg (by omega)]
  have hacq2 : ValkeyService.acquire_lock { s with kv := kvSet s.kv ("lock:" ++ k) (VEntry.mk tok1 (some (t0 + timeout))) } t1 k tok2 timeout = Except.ok (false, { s with kv := kvSet s.kv ("lock:" ++ k) (VEntry.mk tok1 (some (t0 + timeout))) }) := by
    rw [ValkeyService.acquire_lock, h2]
    simp [hlook]
  exact ⟨_, hacq1, hacq2⟩

/-- Witness for C5: two back-to-back acquisitions on a fresh lock key. -/
theorem acquire_lock_mutual_exclusion_witness :
    ∃ s1, ValkeyService.acquire_lock ⟨true, [], [], []⟩ 0 "job" "tokA" 10 =
        Except.ok (true, s1) ∧
      ValkeyService.acquire_lock s1 1 "job" "tokB" 10 = Except.ok (false, s1) :=
  acquire_lock_mutual_exclusion ⟨true, [], [], []⟩ "job" "tokA" "tokB" 0 1 10
    (by decide) (by decide) (by decide) (by decide)

/-! ### Claim C6: add_vector performs no dimensionality validation -/

/-- C6 counterexample: after creating an index declared with dimensionality 2,
adding a 3-dimensional vector does not fail with a validation error — it
succeeds and stores the 3-dimensional entry as-is. -/
theorem add_vector_dim_mismatch_counterexample :
    ValkeyService.create_vector_index ⟨true, [], [], []⟩ "idx" 2 =
      Except.ok ⟨true, [], [], [("idx", 2)]⟩ ∧
    ValkeyService.add_vector ⟨true, [], [], [("idx", 2)]⟩ "idx" "k" [1, 0, 3] "c" "a" =
      Except.ok ⟨true, [], [("doc:k", ⟨[1, 0, 3], "c", "a"⟩)], [("idx", 2)]⟩ := by
  exact ⟨rfl, rfl⟩

/-- C6 amended: `add_vector` never compares the vector's length with the
index's declared dimensionality (it does not consult the index at all): even
when the lengths differ, the call succeeds and stores exactly the given
vector, content and tag under `doc:{key}`. -/
theorem add_vector_stores_unconditionally (s : ValkeyState)
    (index_name key content tag : String) (v : List ℚ) (D : Nat)
    (h : s.connected = true)
    (hspec : (s.indexSpecs.find? (fun p => p.1 = index_name)).map (fun p => p.2) = some D)
    (hlen : v.length ≠ D) :
    ∃ s2, ValkeyService.add_vector s index_name key v content tag = Except.ok s2 ∧
      (s2.docs.find? (fun p => p.1 = "doc:" ++ key)).map (fun p => p.2) =
        some ⟨v, content, tag⟩ := by
  refine ⟨_, by rw [ValkeyService.add_vector, h]; rfl, ?_⟩
  simp [List.find?]

/-- Witness for C6's amended claim: a 3-vector into a 2-dimensional index. -/
theorem add_vector_stores_unconditionally_witness :
    ∃ s2, ValkeyService.add_vector ⟨true, [], [], [("idx", 2)]⟩ "idx" "k" [1, 0, 3] "c" "a" =
        Except.ok s2 ∧
      (s2.docs.find? (fun p => p.1 = "doc:" ++ "k")).map (fun p => p.2) =
        some ⟨[1, 0, 3], "c", "a"⟩ :=
  add_vector_stores_unconditionally ⟨true, [], [], [("idx", 2)]⟩ "idx" "k" "c" "a"
    [1, 0, 3] 2 (by decide) (by decide) (by decide)

/-! ### Claim C8: appending to a conversation buffer resets its TTL -/

/-- C8 counterexample: a conversation buffer key stored with expiry 3600 has
its expiry moved to 3700 by `add_message` at time 100 — appending a new
message extends the remaining lifetime of the previously stored buffer,
because the whole buffer is one key that is re-`SET` with a fresh full TTL. -/
theorem conversation_ttl_extension_counterexample :
    ∃ s2, ConversationHistory.add_message ⟨10, 3600⟩
        ⟨true, [("conversation:c", ⟨"old", some 3600⟩)], [], []⟩ 100
        ⟨"u", [], 100, false, "c"⟩ = Except.ok s2 ∧
      (s2.kv.find? (fun p => p.1 = "conversation:c")).map (fun p => p.2.expiresAt) =
        some (some 3700) ∧ (3600 : Nat) < 3700 := by
  exact ⟨_, rfl, rfl, by norm_num⟩

/-- C8 amended: every `ConversationHistory.add_message` rewrites the
channel's buffer key with `ttl=self.ttl`, setting its expiry to exactly
`now + ttl`; appending therefore extends the expiry of all previously
stored messages in that buffer whenever time has advanced since the last
write (`SET` with `EX` replaces the old expiry unconditionally). -/
theorem conversation_add_message_resets_ttl (ch : ConversationHistory)
    (s : ValkeyState) (now : Nat) (message : CHMessage) (h : s.connected = true) :
    ∃ s2, ConversationHistory.add_message ch s now message = Except.ok s2 ∧
      (s2.kv.find? (fun p => p.1 = ConversationHistory._get_key message.channel_id)).map
        (fun p => p.2.expiresAt) = some (some (now + ch.ttl)) := by
  simp only [ConversationHistory.add_message]
  rw [ValkeyService.set_ok _ _ _ _ _ h]
  refine ⟨_, rfl, ?_⟩
  simp [kvSet, List.find?]

/-- Witness for C8's amended claim at a concrete store and message. -/
theorem conversation_add_message_resets_ttl_witness :
    ∃ s2, ConversationHistory.add_message ⟨10, 3600⟩ ⟨true, [], [], []⟩ 5
        ⟨"u", [], 5, false, "c"⟩ = Except.ok s2 ∧
      (s2.kv.find? (fun p => p.1 = ConversationHistory._get_key "c")).map
        (fun p => p.2.expiresAt) = some (some 3605) :=
  conversation_add_message_resets_ttl ⟨10, 3600⟩ ⟨true, [], [], []⟩ 5
    ⟨"u", [], 5, false, "c"⟩ (by decide)

/-! ### Claim C9: memory record create / enumerate / wipe -/

theorem strStem_append (p q : String) : strStem p (p ++ q) = true := by
  rw [strStem, String.data_append]
  exact List.isPrefixOf_iff_prefix.mpr (List.prefix_append _ _)

theorem keysUnder_kvSet_match (kv : List (String × VEntry)) (now : Nat) (stem q : String)
    (e : VEntry) (hq : strStem stem q = true) (he : e.expired now = false) :
    kvKeysUnder (kvSet kv q e) now stem =
      q :: kvKeysUnder (kv.eraseP (fun p => p.1 = q)) now stem := by
  simp [kvKeysUnder, kvSet, List.filter_cons, hq, he]

theorem keysUnder_wipe_nil (kv : List (String × VEntry)) (now : Nat) (stem : String) :
    kvKeysUnder (kv.filter (fun p => !(strStem stem p.1 && !p.2.expired now))) now stem = [] := by
  simp only [kvKeysUnder]
  induction kv with
  | nil => rfl
  | cons a kv ih =>
    by_cases hx : (strStem stem a.1 && !a.2.expired now) = true
    · simp only [List.filter_cons, hx, Bool.not_true, Bool.false_eq_true, if_false]
      exact ih
    · have hx2 : (strStem stem a.1 && !a.2.expired now) = false :=
        Bool.eq_false_iff.mpr hx
      simp only [List.filter_cons, hx2, Bool.not_false, if_true, hx2, Bool.false_eq_true,
        if_false]
      exact ih

theorem jsonDumps_obj_ne_empty (fs : List (String × Json)) : jsonDumps (Json.obj fs) ≠ "" := by
  intro hcontra
  have hd : ('\x7b' :: (renderFields fs ++ ['\x7d'])) = ([] : List Char) := by
    have := congrArg String.data hcontra
    simpa [jsonDumps, renderJson] using this
  exact List.cons_ne_nil _ _ hd

/-- C9: starting from a connected store with no memories in the category,
`create_memory` writes one record under `memory:{category}:{id}`;
`get_memories` then returns exactly that one record, whose `content` field
is the stored content; after `wipe_category`, `get_memories` returns the
empty collection. -/
theorem memory_create_get_wipe (s : ValkeyState) (now : Nat) (category : String)
    (content : Json) (memory_id timestamp : String) (h : s.connected = true)
    (hempty : kvKeysUnder s.kv now (MemoryService._get_key category none ++ ":") = []) :
    ∃ s2, MemoryService.create_memory s now category content none memory_id timestamp =
        Except.ok (memory_id, s2) ∧
      MemoryService.get_memories s2 now category =
        Except.ok [Json.obj [("id", Json.str memory_id), ("content", content), ("metadata", Json.obj []), ("timestamp", Json.str timestamp)]] ∧
      ∃ s3, MemoryService.wipe_category s2 now category = Except.ok s3 ∧
        MemoryService.get_memories s3 now category = Except.ok [] := by
  have hkeyeq : MemoryService._get_key category (some memory_id) =
      (MemoryService._get_key category none ++ ":") ++ memory_id := rfl
  set stem := MemoryService._get_key category none ++ ":" with hstem
  set key := MemoryService._get_key category (some memory_id) with hkey
  set mem := MemoryService.memoryData memory_id content none timestamp with hmem
  set entry := VEntry.mk (ValkeyService._serialize (Json.str (jsonDumps mem))) (Option.map (fun n => now + n) none) with hentry
  set s2 : ValkeyState := { s with kv := kvSet s.kv key entry } with hs2
  have h2 : s2.connected = true := h
  have hcreate : MemoryService.create_memory s now category content none memory_id timestamp = Except.ok (memory_id, s2) := by
    rw [MemoryService.create_memory, ValkeyService.set_ok _ _ _ _ _ h]
  have hq : strStem stem key = true := by
    rw [show key = stem ++ memory_id from hkeyeq]
    exact strStem_append _ _
  have hexp : entry.expired now = false := rfl
  have hkeys2 : kvKeysUnder s2.kv now stem = [key] := by
    show kvKeysUnder (kvSet s.kv key entry) now stem = [key]
    rw [keysUnder_kvSet_match _ _ _ _ _ hq hexp,
      keysUnder_eraseP_nil _ _ _ _ hempty]
  have hget2 : ValkeyService.get s2 now key = Except.ok (Json.str (jsonDumps mem)) := by
    rw [ValkeyService.get_ok _ _ _ h2, hs2, kvLookup_kvSet_self]
    simp [hentry, VEntry.expired, deserialize_serialize]
  have hne : jsonDumps mem ≠ "" := by rw [hmem, MemoryService.memoryData]; exact jsonDumps_obj_ne_empty _
  have hmems2 : MemoryService.get_memories s2 now category = Except.ok [mem] := by
    rw [MemoryService.get_memories, h2]
    simp only [Bool.not_true, Bool.false_eq_true, if_false, ← hstem, hkeys2,
      List.foldrM_cons, List.foldrM_nil, pure_bind]
    simp [hget2, Json.truthy, hne, MemoryService._deserialize, jsonLoads_jsonDumps]
  set s3 : ValkeyState := { s2 with kv := s2.kv.filter (fun p => !(strStem stem p.1 && !p.2.expired now)) } with hs3
  have hwipe : MemoryService.wipe_category s2 now category = Except.ok s3 := by
    rw [MemoryService.wipe_category, if_neg (by simp [h2, h])]
  have h3 : s3.connected = true := h2
  have hkeys3 : kvKeysUnder s3.kv now stem = [] := keysUnder_wipe_nil _ _ _
  have hmems3 : MemoryService.get_memories s3 now category = Except.ok [] := by
    rw [MemoryService.get_memories, h3]
    simp only [Bool.not_true, Bool.false_eq_true, if_false, ← hstem, hkeys3,
      List.foldrM_nil]
    rfl
  refine ⟨s2, hcreate, ?_, s3, hwipe, hmems3⟩
  rw [hmems2]
  rfl

/-- Witness for C9: the scenario `create_memory("chan1", \x7b"text": "hello"\x7d)`,
`get_memories`, `wipe_category`, `get_memories` on an initially empty store. -/
theorem memory_create_get_wipe_witness :
    ∃ s2, MemoryService.create_memory ⟨true, [], [], []⟩ 0 "chan1"
        (Json.obj [("text", Json.str "hello")]) none "id0" "t0" =
        Except.ok ("id0", s2) ∧
      MemoryService.get_memories s2 0 "chan1" =
        Except.ok [Json.obj [("id", Json.str "id0"), ("content", Json.obj [("text", Json.str "hello")]), ("metadata", Json.obj []), ("timestamp", Json.str "t0")]] ∧
      ∃ s3, MemoryService.wipe_category s2 0 "chan1" = Except.ok s3 ∧
        MemoryService.get_memories s3 0 "chan1" = Except.ok [] :=
  memory_create_get_wipe ⟨true, [], [], []⟩ 0 "chan1"
    (Json.obj [("text", Json.str "hello")]) "id0" "t0" (by decide) (by rfl)

/-! ### ShortTermMemory buffer lemmas -/

theorem mapLookup_mapSet_self (m : List (String × α)) (k : String) (v : α) :
    mapLookup (mapSet m k v) k = some v := by
  simp [mapLookup, mapSet, List.find?]

theorem find?_eraseP_ne (m : List (String × α)) (k k2 : String) (hne : k2 ≠ k) :
    (m.eraseP (fun p => p.1 = k)).find? (fun p => p.1 = k2) =
      m.find? (fun p => p.1 = k2) := by
  induction m with
  | nil => rfl
  | cons a m ih =>
    by_cases ha : a.1 = k
    · simp only [List.eraseP_cons, ha, decide_True, cond_true]
      rw [List.find?_cons_of_neg _ (by simp [ha]; exact fun hh => hne hh.symm)]
    · simp only [List.eraseP_cons, ha, decide_False, cond_false]
      by_cases ha2 : a.1 = k2
      · rw [List.find?_cons_of_pos _ (by simp [ha2]), List.find?_cons_of_pos _ (by simp [ha2])]
      · rw [List.find?_cons_of_neg _ (by simp [ha2]), List.find?_cons_of_neg _ (by simp [ha2]),
          ih]

theorem mapLookup_mapSet_ne (m : List (String × α)) (k k2 : String) (v : α)
    (hne : k2 ≠ k) : mapLookup (mapSet m k v) k2 = mapLookup m k2 := by
  rw [mapLookup, mapSet, List.find?_cons_of_neg _ (by simp; exact fun hh => hne hh.symm),
    find?_eraseP_ne _ _ _ hne]
  rfl

theorem dequeAppend_length_le {maxlen : Nat} {b : List α} (x : α)
    (h : b.length ≤ maxlen) : (dequeAppend maxlen b x).length ≤ maxlen := by
  rw [dequeAppend]
  split
  · simp
  · split
    · simp only [List.length_append, List.length_cons, List.length_nil]
      omega
    · simp only [List.length_append, List.length_drop, List.length_cons, List.length_nil]
      omega

theorem cleanupBuf_length_le (now ttl : Int) (b : List STMessage) :
    (ShortTermMemory.cleanupBuf now ttl b).length ≤ b.length :=
  (List.dropWhile_sublist _).length_le

theorem cleanupBuf_fresh {now ttl : Int} {b : List STMessage}
    (hs : b.Pairwise (fun m1 m2 => m1.timestamp ≤ m2.timestamp)) :
    ∀ m ∈ ShortTermMemory.cleanupBuf now ttl b, now - m.timestamp ≤ ttl := by
  induction b with
  | nil => intro m hm; simp [ShortTermMemory.cleanupBuf] at hm
  | cons m0 b ih =>
    intro m hm
    rw [ShortTermMemory.cleanupBuf, List.dropWhile_cons] at hm
    by_cases hexp : ShortTermMemory.isExpired now ttl m0 = true
    · rw [if_pos hexp] at hm
      exact ih hs.tail m hm
    · rw [if_neg hexp] at hm
      have h0 : now - m0.timestamp ≤ ttl := by
        have := hexp
        rw [ShortTermMemory.isExpired, decide_eq_true_eq] at this
        omega
      rcases List.mem_cons.mp hm with rfl | hm2
      · exact h0
      · have := (List.pairwise_cons.mp hs).1 m hm2
        omega

theorem cleanupBuf_eq_filter {now ttl : Int} {b : List STMessage}
    (hs : b.Pairwise (fun m1 m2 => m1.timestamp ≤ m2.timestamp)) :
    ShortTermMemory.cleanupBuf now ttl b =
      b.filter (fun m => !ShortTermMemory.isExpired now ttl m) := by
  induction b with
  | nil => rfl
  | cons m0 b ih =>
    rw [ShortTermMemory.cleanupBuf, List.dropWhile_cons, List.filter_cons]
    by_cases hexp : ShortTermMemory.isExpired now ttl m0 = true
    · rw [if_pos hexp, if_neg (by simp [hexp])]
      exact ih hs.tail
    · rw [if_neg hexp, if_pos (by simp [Bool.eq_false_iff.mpr hexp])]
      have hall : ∀ m ∈ b, ShortTermMemory.isExpired now ttl m = false := by
        intro m hm
        have hle := (List.pairwise_cons.mp hs).1 m hm
        have h0 : ¬(ttl < now - m0.timestamp) := by
          have := hexp
          rw [ShortTermMemory.isExpired, decide_eq_true_eq] at this
          exact this
        rw [ShortTermMemory.isExpired, decide_eq_false_iff_not]
        omega
      rw [List.filter_eq_self.mpr (fun m hm => by simp [hall m hm])]

theorem cleanup_fields (s : ShortTermMemory) (ch : String) (now : Int) :
    (ShortTermMemory._cleanup_expired s ch now).max_messages = s.max_messages ∧
    (ShortTermMemory._cleanup_expired s ch now).ttl = s.ttl := by
  rw [ShortTermMemory._cleanup_expired]
  cases mapLookup s.channel_messages ch <;> exact ⟨rfl, rfl⟩

theorem cleanup_lookup (s : ShortTermMemory) (ch : String) (now : Int) (ch2 : String) :
    mapLookup (ShortTermMemory._cleanup_expired s ch now).channel_messages ch2 =
      if ch2 = ch then
        (mapLookup s.channel_messages ch).map (ShortTermMemory.cleanupBuf now s.ttl)
      else mapLookup s.channel_messages ch2 := by
  rw [ShortTermMemory._cleanup_expired]
  cases hl : mapLookup s.channel_messages ch with
  | none =>
    by_cases hc : ch2 = ch
    · subst hc; simp [hl]
    · simp [hc]
  | some b =>
    by_cases hc : ch2 = ch
    · subst hc; simp [mapLookup_mapSet_self, hl]
    · simp [hc, mapLookup_mapSet_ne _ _ _ _ hc]

theorem add_message_fields (s : ShortTermMemory) (msg : STMessage) (now : Int) :
    (ShortTermMemory.add_message s msg now).max_messages = s.max_messages ∧
    (ShortTermMemory.add_message s msg now).ttl = s.ttl := by
  rw [ShortTermMemory.add_message]
  cases hl : mapLookup s.channel_messages msg.channel_id <;>
    simp only [hl] <;>
    exact ⟨(cleanup_fields _ _ _).1, (cleanup_fields _ _ _).2⟩

theorem add_message_lookup (s : ShortTermMemory) (msg : STMessage) (now : Int)
    (ch2 : String) :
    mapLookup (ShortTermMemory.add_message s msg now).channel_messages ch2 =
      if ch2 = msg.channel_id then
        some (dequeAppend s.max_messages
          (ShortTermMemory.cleanupBuf now s.ttl
            ((mapLookup s.channel_messages msg.channel_id).getD [])) msg)
      else mapLookup s.channel_messages ch2 := by
  rw [ShortTermMemory.add_message]
  cases hl : mapLookup s.channel_messages msg.channel_id with
  | none =>
    simp only [hl]
    by_cases hc : ch2 = msg.channel_id
    · subst hc
      rw [if_pos rfl, mapLookup_mapSet_self, cleanup_lookup, if_pos rfl,
        mapLookup_mapSet_self, (cleanup_fields _ _ _).1]
      rfl
    · rw [if_neg hc, mapLookup_mapSet_ne _ _ _ _ hc, cleanup_lookup, if_neg hc,
        mapLookup_mapSet_ne _ _ _ _ hc]
  | some b =>
    simp only [hl]
    by_cases hc : ch2 = msg.channel_id
    · subst hc
      rw [if_pos rfl, mapLookup_mapSet_self, cleanup_lookup, if_pos rfl, hl,
        (cleanup_fields _ _ _).1]
      rfl
    · rw [if_neg hc, mapLookup_mapSet_ne _ _ _ _ hc, cleanup_lookup, if_neg hc]

theorem get_ctx_absent (s : ShortTermMemory) (ch : String) (limit : Option Int)
    (now : Int) (hb : mapLookup s.channel_messages ch = none) :
    ShortTermMemory.get_channel_context s ch limit now = ([], s) := by
  rw [ShortTermMemory.get_channel_context]
  simp only [hb]

theorem get_ctx_eq (s : ShortTermMemory) (ch : String) (limit : Option Int) (now : Int)
    (b : List STMessage) (hb : mapLookup s.channel_messages ch = some b) :
    ShortTermMemory.get_channel_context s ch limit now =
      ((match limit with
        | some l => if l ≠ 0 then
            ShortTermMemory.pyTailSlice l (ShortTermMemory.cleanupBuf now s.ttl b)
          else ShortTermMemory.cleanupBuf now s.ttl b
        | none => ShortTermMemory.cleanupBuf now s.ttl b),
       ShortTermMemory._cleanup_expired s ch now) := by
  rw [ShortTermMemory.get_channel_context]
  simp only [hb]
  rw [cleanup_lookup, if_pos rfl, hb]
  rfl

/-! ### Claim C3: buffer bound and TTL freshness -/

/-- C3 counterexample: the TTL half of the claim fails unconditionally.
Starting from an empty memory, adding a newer message (timestamp 100) and
then an older one (timestamp 0) — the order in which `populate_context`
adds them, since Discord history iterates newest first — leaves an expired
message behind a fresh one.  `_cleanup_expired` pops only the expired
prefix of the buffer, so `get_channel_context` at `now = 100` with
`ttl = 45` returns the stale message, whose age `100 - 0 = 100` exceeds
the TTL `45`. -/
theorem shortterm_stale_return_counterexample :
    (ShortTermMemory.get_channel_context
        (ShortTermMemory.add_message
          (ShortTermMemory.add_message ⟨30, 45, []⟩
            ⟨"fresh", "a", 100, "c", [], [], false⟩ 100)
          ⟨"stale", "b", 0, "c", [], [], false⟩ 100)
        "c" none 100).1 =
      [⟨"fresh", "a", 100, "c", [], [], false⟩,
       ⟨"stale", "b", 0, "c", [], [], false⟩] ∧
    (45 : Int) < 100 - 0 := ⟨rfl, by decide⟩

/-- C3 amended: per-channel buffers never exceed `max_messages` — preserved
by `add_message` (ring-buffer append after cleanup) and by
`get_channel_context` (cleanup only shrinks) — and `get_channel_context`
never returns a message whose age exceeds the TTL provided the channel's
buffer is chronologically ordered (timestamps nondecreasing from the
front); the ordering proviso is necessary because `_cleanup_expired` pops
only the expired prefix of the deque. -/
theorem shortterm_bound_and_ttl (s : ShortTermMemory) (msg : STMessage) (ch : String)
    (limit : Option Int) (now : Int)
    (hbound : ∀ ch2 b, mapLookup s.channel_messages ch2 = some b →
      b.length ≤ s.max_messages) :
    (∀ ch2 b, mapLookup (ShortTermMemory.add_message s msg now).channel_messages ch2 =
        some b → b.length ≤ s.max_messages) ∧
    (∀ ch2 b,
      mapLookup (ShortTermMemory.get_channel_context s ch limit now).2.channel_messages ch2 =
        some b → b.length ≤ s.max_messages) ∧
    (∀ b, mapLookup s.channel_messages ch = some b →
      b.Pairwise (fun m1 m2 => m1.timestamp ≤ m2.timestamp) →
      ∀ m ∈ (ShortTermMemory.get_channel_context s ch limit now).1,
        now - m.timestamp ≤ s.ttl) := by
  refine ⟨?_, ?_, ?_⟩
  · intro ch2 b hlk
    rw [add_message_lookup] at hlk
    by_cases hc : ch2 = msg.channel_id
    · rw [if_pos hc] at hlk
      obtain rfl := Option.some.inj hlk.symm
      apply dequeAppend_length_le
      refine le_trans (cleanupBuf_length_le _ _ _) ?_
      cases hb0 : mapLookup s.channel_messages msg.channel_id with
      | none => simp
      | some b0 => simpa using hbound _ _ hb0
    · rw [if_neg hc] at hlk
      exact hbound _ _ hlk
  · intro ch2 b hlk
    cases hb0 : mapLookup s.channel_messages ch with
    | none =>
      rw [get_ctx_absent s ch limit now hb0] at hlk
      exact hbound _ _ hlk
    | some b1 =>
      rw [get_ctx_eq s ch limit now b1 hb0] at hlk
      rw [show ∀ x : List STMessage × ShortTermMemory, x.2 = x.2 from fun _ => rfl] at hlk
      rw [cleanup_lookup] at hlk
      by_cases hc : ch2 = ch
      · rw [if_pos hc, hb0] at hlk
        have hbb : ShortTermMemory.cleanupBuf now s.ttl b1 = b := by simpa using hlk
        obtain rfl := hbb
        exact le_trans (cleanupBuf_length_le _ _ _) (hbound _ _ hb0)
      · rw [if_neg hc] at hlk
        exact hbound _ _ hlk
  · intro b hb hs m hm
    have hsub : m ∈ ShortTermMemory.cleanupBuf now s.ttl b := by
      rw [get_ctx_eq s ch limit now b hb] at hm
      cases limit with
      | none => exact hm
      | some l =>
        by_cases hz : l ≠ 0
        · rw [show ((if l ≠ 0 then ShortTermMemory.pyTailSlice l (ShortTermMemory.cleanupBuf now s.ttl b) else ShortTermMemory.cleanupBuf now s.ttl b), ShortTermMemory._cleanup_expired s ch now).1 = ShortTermMemory.pyTailSlice l (ShortTermMemory.cleanupBuf now s.ttl b) from by rw [if_pos hz]] at hm
          simp only [ShortTermMemory.pyTailSlice] at hm
          exact List.drop_subset _ _ hm
        · rw [show ((if l ≠ 0 then ShortTermMemory.pyTailSlice l (ShortTermMemory.cleanupBuf now s.ttl b) else ShortTermMemory.cleanupBuf now s.ttl b), ShortTermMemory._cleanup_expired s ch now).1 = ShortTermMemory.cleanupBuf now s.ttl b from by rw [if_neg hz]] at hm
          exact hm
    exact cleanupBuf_fresh hs m hsub

/-- Witness for C3 at a concrete populated memory: channel "c" holds a
chronologically ordered buffer with one expired message (timestamp -100)
and one fresh one (timestamp 0); at `now = 10` the freshness conjunct's
premise is satisfied and cleanup really drops the expired message. -/
theorem shortterm_bound_and_ttl_witness :
    (∀ ch2 b, mapLookup (ShortTermMemory.add_message
        ⟨30, 45, [("c", [⟨"old", "a", -100, "c", [], [], false⟩,
          ⟨"new", "b", 0, "c", [], [], false⟩])]⟩
        ⟨"m", "u", 10, "c", [], [], false⟩ 10).channel_messages ch2 = some b →
        b.length ≤ 30) ∧
    (∀ ch2 b,
      mapLookup (ShortTermMemory.get_channel_context
        ⟨30, 45, [("c", [⟨"old", "a", -100, "c", [], [], false⟩,
          ⟨"new", "b", 0, "c", [], [], false⟩])]⟩
        "c" none 10).2.channel_messages ch2 = some b → b.length ≤ 30) ∧
    (∀ b, mapLookup [("c", [(⟨"old", "a", -100, "c", [], [], false⟩ : STMessage),
        ⟨"new", "b", 0, "c", [], [], false⟩])] "c" = some b →
      b.Pairwise (fun m1 m2 => m1.timestamp ≤ m2.timestamp) →
      ∀ m ∈ (ShortTermMemory.get_channel_context
        ⟨30, 45, [("c", [⟨"old", "a", -100, "c", [], [], false⟩,
          ⟨"new", "b", 0, "c", [], [], false⟩])]⟩
        "c" none 10).1,
        10 - m.timestamp ≤ 45) :=
  shortterm_bound_and_ttl
    ⟨30, 45, [("c", [⟨"old", "a", -100, "c", [], [], false⟩,
      ⟨"new", "b", 0, "c", [], [], false⟩])]⟩
    ⟨"m", "u", 10, "c", [], [], false⟩ "c" none 10
    (by
      show ∀ ch2 b,
        mapLookup [("c", [(⟨"old", "a", -100, "c", [], [], false⟩ : STMessage),
          ⟨"new", "b", 0, "c", [], [], false⟩])] ch2 = some b → b.length ≤ 30
      intro ch2 b hb
      by_cases hc : ("c" : String) = ch2
      · rw [← hc] at hb
        rw [show mapLookup [("c", [(⟨"old", "a", -100, "c", [], [], false⟩ : STMessage),
            ⟨"new", "b", 0, "c", [], [], false⟩])] "c" =
          some [⟨"old", "a", -100, "c", [], [], false⟩,
            ⟨"new", "b", 0, "c", [], [], false⟩] from rfl] at hb
        obtain rfl := Option.some.inj hb
        decide
      · simp [mapLookup, hc] at hb)

/-! ### Claim C7: the TTL boundary is retained, eviction is oldest-first -/

/-- C7 counterexample: a message whose age at cleanup time equals the TTL
exactly (`now - timestamp = 45 = ttl`) is NOT removed by
`_cleanup_expired`: the source evicts only on the strict comparison
`now - timestamp > ttl`, so the claim that the boundary message is treated
as expired is false. -/
theorem cleanup_boundary_counterexample :
    (45 : Int) - 0 = 45 ∧
    mapLookup (ShortTermMemory._cleanup_expired
        ⟨30, 45, [("c", [⟨"x", "a", 0, "c", [], [], false⟩])]⟩ "c" 45).channel_messages "c" =
      some [⟨"x", "a", 0, "c", [], [], false⟩] := ⟨rfl, rfl⟩

/-- C7 amended: on a chronologically ordered buffer the cleanup pass pops
expired messages from the front (oldest first) and retains exactly the
messages with `now - timestamp ≤ ttl`; in particular a message whose age
equals the TTL exactly is retained, because expiry uses the strict
comparison `now - timestamp > ttl`. -/
theorem cleanup_strict_boundary (s : ShortTermMemory) (ch : String) (now : Int)
    (b : List STMessage) (hb : mapLookup s.channel_messages ch = some b)
    (hs : b.Pairwise (fun m1 m2 => m1.timestamp ≤ m2.timestamp)) :
    mapLookup (ShortTermMemory._cleanup_expired s ch now).channel_messages ch =
      some (b.filter (fun m => !ShortTermMemory.isExpired now s.ttl m)) ∧
    (∀ m ∈ b, now - m.timestamp = s.ttl →
      ShortTermMemory.isExpired now s.ttl m = false) := by
  constructor
  · rw [cleanup_lookup, if_pos rfl, hb]
    simp [cleanupBuf_eq_filter hs]
  · intro m _ heq
    rw [ShortTermMemory.isExpired, decide_eq_false_iff_not]
    omega

/-- Witness for C7's amended claim on a two-message buffer with one strictly
expired and one boundary message. -/
theorem cleanup_strict_boundary_witness :
    mapLookup (ShortTermMemory._cleanup_expired
        ⟨30, 45, [("c", [⟨"old", "a", -1, "c", [], [], false⟩, ⟨"edge", "a", 0, "c", [], [], false⟩])]⟩
        "c" 45).channel_messages "c" =
      some ([⟨"old", "a", -1, "c", [], [], false⟩, ⟨"edge", "a", 0, "c", [], [], false⟩].filter
        (fun m => !ShortTermMemory.isExpired 45 45 m)) ∧
    (∀ m ∈ [(⟨"old", "a", -1, "c", [], [], false⟩ : STMessage), ⟨"edge", "a", 0, "c", [], [], false⟩],
      (45 : Int) - m.timestamp = 45 → ShortTermMemory.isExpired 45 45 m = false) :=
  cleanup_strict_boundary ⟨30, 45, [("c", [⟨"old", "a", -1, "c", [], [], false⟩, ⟨"edge", "a", 0, "c", [], [], false⟩])]⟩
    "c" 45 [⟨"old", "a", -1, "c", [], [], false⟩, ⟨"edge", "a", 0, "c", [], [], false⟩]
    rfl (by simp)

/-! ### Claim C10: a limit of zero returns the whole buffer -/

/-- C10: because `if limit:` treats 0 as falsy, `get_channel_context` with
`limit = 0` performs no slicing: it returns all non-expired messages, the
same list as passing no limit, and a non-empty one when some message is
fresh. -/
theorem get_ctx_limit_zero (s : ShortTermMemory) (ch : String) (now : Int)
    (b : List STMessage) (hb : mapLookup s.channel_messages ch = some b)
    (hs : b.Pairwise (fun m1 m2 => m1.timestamp ≤ m2.timestamp))
    (hfresh : ∃ m ∈ b, ShortTermMemory.isExpired now s.ttl m = false) :
    (ShortTermMemory.get_channel_context s ch (some 0) now).1 =
      ShortTermMemory.cleanupBuf now s.ttl b ∧
    (ShortTermMemory.get_channel_context s ch (some 0) now).1 =
      (ShortTermMemory.get_channel_context s ch none now).1 ∧
    (ShortTermMemory.get_channel_context s ch (some 0) now).1 ≠ [] := by
  have h0 := get_ctx_eq s ch (some 0) now b hb
  have hn := get_ctx_eq s ch none now b hb
  have h1 : (ShortTermMemory.get_channel_context s ch (some 0) now).1 =
      ShortTermMemory.cleanupBuf now s.ttl b := by
    rw [h0]
    simp
  refine ⟨h1, ?_, ?_⟩
  · rw [h1, hn]
  · rw [h1, cleanupBuf_eq_filter hs]
    obtain ⟨m, hm, hmf⟩ := hfresh
    exact List.ne_nil_of_mem (List.mem_filter.mpr ⟨hm, by simp [hmf]⟩)

/-- Witness for C10 on a one-message fresh buffer. -/
theorem get_ctx_limit_zero_witness :
    (ShortTermMemory.get_channel_context ⟨30, 45, [("c", [⟨"hi", "a", 0, "c", [], [], false⟩])]⟩
        "c" (some 0) 3).1 = ShortTermMemory.cleanupBuf 3 45 [⟨"hi", "a", 0, "c", [], [], false⟩] ∧
    (ShortTermMemory.get_channel_context ⟨30, 45, [("c", [⟨"hi", "a", 0, "c", [], [], false⟩])]⟩
        "c" (some 0) 3).1 =
      (ShortTermMemory.get_channel_context ⟨30, 45, [("c", [⟨"hi", "a", 0, "c", [], [], false⟩])]⟩
        "c" none 3).1 ∧
    (ShortTermMemory.get_channel_context ⟨30, 45, [("c", [⟨"hi", "a", 0, "c", [], [], false⟩])]⟩
        "c" (some 0) 3).1 ≠ [] :=
  get_ctx_limit_zero ⟨30, 45, [("c", [⟨"hi", "a", 0, "c", [], [], false⟩])]⟩ "c" 3
    [⟨"hi", "a", 0, "c", [], [], false⟩] rfl (by simp)
    ⟨⟨"hi", "a", 0, "c", [], [], false⟩, by simp, by decide⟩

/-! ### Claim C2: atomic_update retry, backoff and contention error -/

theorem atomicLoop_all_conflicts (conflicts : Nat → Bool) (readVal : Nat → Json)
    (f : Json → Json) (m : Nat) :
    ∀ (k a : Nat) (sleeps : List ℚ), m - a = k → a < m →
    (∀ i, a ≤ i → i < m → conflicts i = true) →
    ValkeyService.atomicLoop conflicts readVal f m a sleeps =
      (Except.error "Too many concurrent updates, try again later",
       sleeps ++ (List.range (m - 1 - a)).map (fun j : Nat => (1 : ℚ) / 10 * ((a : ℚ) + (j : ℚ) + 1))) := by
  intro k
  induction k with
  | zero => intro a sleeps hk ha _; omega
  | succ k ih =>
    intro a sleeps hk ha hconf
    rw [ValkeyService.atomicLoop, dif_pos ha, if_pos (hconf a le_rfl ha)]
    by_cases hlast : a = m - 1
    · rw [if_pos hlast, show m - 1 - a = 0 from by omega]
      simp
    · rw [if_neg hlast]
      rw [ih (a + 1) (sleeps ++ [(1 : ℚ) / 10 * (a + 1)]) (by omega) (by omega)
        (fun i h1 h2 => hconf i (by omega) h2)]
      rw [List.append_assoc, List.singleton_append]
      have hn : m - 1 - a = (m - 1 - (a + 1)) + 1 := by omega
      rw [hn, List.range_succ_eq_map, List.map_cons, List.map_map]
      have hf0 : (1 : ℚ) / 10 * ((a : ℚ) + (0 : ℕ) + 1) = (1 : ℚ) / 10 * ((a : ℚ) + 1) := by
        push_cast
        ring
      have hfs : ((fun j : ℕ => (1 : ℚ) / 10 * ((a : ℚ) + j + 1)) ∘ Nat.succ) =
          (fun j : ℕ => (1 : ℚ) / 10 * (((a : ℕ) + 1 : ℕ) + (j : ℚ) + 1)) := by
        funext j
        simp only [Function.comp]
        push_cast
        ring
      rw [hf0, hfs]

theorem atomicLoop_success (conflicts : Nat → Bool) (readVal : Nat → Json)
    (f : Json → Json) (m i : Nat) (hi : i < m) (hci : conflicts i = false) :
    ∀ (k a : Nat) (sleeps : List ℚ), i - a = k → a ≤ i →
    (∀ j, a ≤ j → j < i → conflicts j = true) →
    ValkeyService.atomicLoop conflicts readVal f m a sleeps =
      (Except.ok (ValkeyService.AtomicOutcome.committed (f (readVal i))),
       sleeps ++ (List.range (i - a)).map (fun j : Nat => (1 : ℚ) / 10 * ((a : ℚ) + (j : ℚ) + 1))) := by
  intro k
  induction k with
  | zero =>
    intro a sleeps hk ha _
    have haa : a = i := by omega
    subst haa
    rw [ValkeyService.atomicLoop, dif_pos hi, if_neg (by simp [hci])]
    simp
  | succ k ih =>
    intro a sleeps hk ha hconf
    have hai : a < i := by omega
    have ham : a < m := by omega
    rw [ValkeyService.atomicLoop, dif_pos ham, if_pos (hconf a le_rfl hai)]
    have hlast : ¬(a = m - 1) := by omega
    rw [if_neg hlast]
    rw [ih (a + 1) (sleeps ++ [(1 : ℚ) / 10 * (a + 1)]) (by omega) (by omega)
      (fun j h1 h2 => hconf j (by omega) h2)]
    rw [List.append_assoc, List.singleton_append]
    have hn : i - a = (i - (a + 1)) + 1 := by omega
    rw [hn, List.range_succ_eq_map, List.map_cons, List.map_map]
    have hf0 : (1 : ℚ) / 10 * ((a : ℚ) + (0 : ℕ) + 1) = (1 : ℚ) / 10 * ((a : ℚ) + 1) := by
      push_cast
      ring
    have hfs : ((fun j : ℕ => (1 : ℚ) / 10 * ((a : ℚ) + j + 1)) ∘ Nat.succ) =
        (fun j : ℕ => (1 : ℚ) / 10 * (((a : ℕ) + 1 : ℕ) + (j : ℚ) + 1)) := by
      funext j
      simp only [Function.comp]
      push_cast
      ring
    rw [hf0, hfs]

/-- C2: under optimistic locking, `atomic_update` retries a conflicted
attempt with backoff sleeps of exactly `0.1 * attempt` seconds (attempt
numbered from 1), makes at most `maxRetries` attempts, raises the
`ValueError` "Too many concurrent updates, try again later" when every
attempt conflicts (never silently overwriting), and returns the committed
value `updateFn(readVal)` as soon as some attempt commits without
conflict. -/
theorem atomic_update_retries (s : ValkeyState) (conflicts : Nat → Bool)
    (readVal : Nat → Json) (updateFn : Json → Json) (m : Nat)
    (h : s.connected = true) (hm : 0 < m) :
    ((∀ i, i < m → conflicts i = true) →
      ValkeyService.atomic_update s conflicts readVal updateFn m =
        Except.ok (Except.error "Too many concurrent updates, try again later",
          (List.range (m - 1)).map (fun j : Nat => (1 : ℚ) / 10 * ((j : ℚ) + 1)))) ∧
    (∀ i, i < m → conflicts i = false → (∀ j, j < i → conflicts j = true) →
      ValkeyService.atomic_update s conflicts readVal updateFn m =
        Except.ok (Except.ok (ValkeyService.AtomicOutcome.committed (updateFn (readVal i))),
          (List.range i).map (fun j : Nat => (1 : ℚ) / 10 * ((j : ℚ) + 1)))) := by
  constructor
  · intro hc
    rw [ValkeyService.atomic_update, if_neg (by simp [h])]
    rw [atomicLoop_all_conflicts conflicts readVal updateFn m (m - 0) 0 [] rfl hm
      (fun i _ h2 => hc i h2)]
    rw [List.nil_append, Nat.sub_zero]
    have hfn : (fun j : ℕ => (1 : ℚ) / 10 * (((0 : ℕ) : ℚ) + j + 1)) =
        (fun j : ℕ => (1 : ℚ) / 10 * ((j : ℚ) + 1)) := by
      funext j
      push_cast
      ring
    rw [hfn]
  · intro i hi hci hcall
    rw [ValkeyService.atomic_update, if_neg (by simp [h])]
    rw [atomicLoop_success conflicts readVal updateFn m i hi hci (i - 0) 0 [] rfl
      (Nat.zero_le _) (fun j _ h2 => hcall j h2)]
    rw [List.nil_append, Nat.sub_zero]
    have hfn : (fun j : ℕ => (1 : ℚ) / 10 * (((0 : ℕ) : ℚ) + j + 1)) =
        (fun j : ℕ => (1 : ℚ) / 10 * ((j : ℚ) + 1)) := by
      funext j
      push_cast
      ring
    rw [hfn]

/-- Witness for C2: with a conflict on the first attempt only, the second
attempt commits after one 0.1-second backoff sleep. -/
theorem atomic_update_retries_witness :
    ValkeyService.atomic_update ⟨true, [], [], []⟩ (fun i => decide (i = 0))
      (fun _ => Json.num 1) (fun v => v) 3 =
      Except.ok (Except.ok (ValkeyService.AtomicOutcome.committed (Json.num 1)),
        (List.range 1).map (fun j : Nat => (1 : ℚ) / 10 * ((j : ℚ) + 1))) :=
  (atomic_update_retries ⟨true, [], [], []⟩ (fun i => decide (i = 0))
    (fun _ => Json.num 1) (fun v => v) 3 (by decide) (by decide)).2 1 (by decide)
    (by decide) (by decide)

/-! ### Claim C4: KNN search ordering and score semantics -/

theorem mulAbs_strictMono : StrictMono (fun x : ℝ => x * |x|) := by
  intro a b hab
  simp only []
  rcases le_or_lt 0 a with ha | ha
  · have hb : 0 < b := lt_of_le_of_lt ha hab
    rw [abs_of_nonneg ha, abs_of_pos hb]
    exact mul_self_lt_mul_self ha hab
  · rw [abs_of_neg ha]
    rcases le_or_lt 0 b with hb | hb
    · rw [abs_of_nonneg hb]
      nlinarith
    · rw [abs_of_neg hb]
      nlinarith

theorem mulAbs_le_iff {x y : ℝ} : x * |x| ≤ y * |y| ↔ x ≤ y :=
  mulAbs_strictMono.le_iff_le

theorem normSq_nonneg (a : List ℚ) : 0 ≤ normSq a := by
  rw [normSq, dot]
  induction a with
  | nil => simp
  | cons x a ih =>
    rw [List.zipWith_cons_cons, List.sum_cons]
    nlinarith [mul_self_nonneg x]

theorem simKey_cast (d N : ℚ) (hN : 0 ≤ N) :
    ((simKey d N : ℚ) : ℝ) =
      ((d : ℝ) / Real.sqrt (N : ℝ)) * |(d : ℝ) / Real.sqrt (N : ℝ)| := by
  rcases eq_or_lt_of_le hN with h0 | hpos
  · rw [← h0]
    norm_num [simKey]
  · have hNR : (0 : ℝ) < (N : ℝ) := by exact_mod_cast hpos
    have hsq : Real.sqrt (N : ℝ) > 0 := Real.sqrt_pos.mpr hNR
    have hss : Real.sqrt (N : ℝ) * Real.sqrt (N : ℝ) = (N : ℝ) :=
      Real.mul_self_sqrt hNR.le
    rw [simKey, if_neg (ne_of_gt hpos)]
    by_cases hd : 0 ≤ d
    · rw [if_pos hd]
      have hdR : (0 : ℝ) ≤ (d : ℝ) := by exact_mod_cast hd
      rw [abs_of_nonneg (div_nonneg hdR hsq.le)]
      push_cast
      rw [div_mul_div_comm, hss]
      ring
    · rw [if_neg hd]
      have hdR : (d : ℝ) < 0 := by exact_mod_cast (not_le.mp hd)
      rw [abs_of_neg (div_neg_of_neg_of_pos hdR hsq)]
      push_cast
      rw [mul_neg, div_mul_div_comm, hss]
      ring

theorem simKey_le_iff (d1 N1 d2 N2 : ℚ) (h1 : 0 ≤ N1) (h2 : 0 ≤ N2) :
    simKey d1 N1 ≤ simKey d2 N2 ↔
      (d1 : ℝ) / Real.sqrt (N1 : ℝ) ≤ (d2 : ℝ) / Real.sqrt (N2 : ℝ) := by
  rw [← Rat.cast_le (K := ℝ), simKey_cast d1 N1 h1, simKey_cast d2 N2 h2, mulAbs_le_iff]

instance : IsTotal SearchHit hitLE := ⟨fun a b => le_total b.key a.key⟩

instance : IsTrans SearchHit hitLE := ⟨fun _ _ _ hab hbc => le_trans hbc hab⟩

/-- C4 counterexample: storing `[1,0]` and `[0,1]` both tagged `"a"` and
searching for `[1,0]` with `top_k = 1` does return the first vector's key,
but the engine-reported score is the cosine DISTANCE
`1 - dot/(‖q‖·‖v‖)`: it is `0` for the returned (identical) vector and `1`
for the orthogonal one — lower score means more similar, and the top
score is not approximately `1.0`. -/
theorem vector_knn_score_counterexample :
    ValkeyService.vector_knn_search ⟨true, [], [("doc:v1", ⟨[1, 0], "c1", "a"⟩), ("doc:v2", ⟨[0, 1], "c2", "a"⟩)], [("idx", 2)]⟩ "idx" [1, 0] 1 "a" =
      Except.ok [⟨"doc:v1", "c1", 1, 1⟩] ∧
    1 - ((1 : ℚ) : ℝ) / Real.sqrt ((1 : ℚ) : ℝ) = 0 ∧
    1 - ((0 : ℚ) : ℝ) / Real.sqrt ((1 : ℚ) : ℝ) = 1 ∧
    ¬|(1 - ((1 : ℚ) : ℝ) / Real.sqrt ((1 : ℚ) : ℝ)) - 1| < 1 / 2 := by
  refine ⟨by simp [ValkeyService.vector_knn_search, List.insertionSort, List.orderedInsert, hitLE, SearchHit.key, simKey, dot, normSq], by norm_num, by norm_num, by norm_num⟩

/-- C4 amended: `vector_knn_search` returns at most `top_k` hits, every hit
comes from a stored document with exactly the requested tag, and the hits
are ordered by ascending cosine distance, i.e. descending cosine
similarity `dot/(‖q‖·‖v‖)` — the engine's `score` field is a distance
(lower = more similar), not a similarity. -/
theorem vector_knn_search_spec (s : ValkeyState) (index_name : String) (q : List ℚ)
    (k : Nat) (tag : String) (res : List SearchHit) (h : s.connected = true)
    (hres : ValkeyService.vector_knn_search s index_name q k tag = Except.ok res) :
    res.length ≤ k ∧
    (∀ hit ∈ res, ∃ dk doc, (dk, doc) ∈ s.docs ∧ doc.tag = tag ∧
      hit = ⟨dk, doc.content, dot q doc.vector, normSq q * normSq doc.vector⟩) ∧
    res.Pairwise (fun h1 h2 => (h2.simNum : ℝ) / Real.sqrt (h2.simDenSq : ℝ) ≤
      (h1.simNum : ℝ) / Real.sqrt (h1.simDenSq : ℝ)) := by
  rw [ValkeyService.vector_knn_search, if_neg (by simp [h])] at hres
  obtain rfl := (Except.ok.inj hres).symm
  have hmem : ∀ hit ∈ (((s.docs.filter (fun p => p.2.tag = tag)).map
      (fun p => SearchHit.mk p.1 p.2.content (dot q p.2.vector)
        (normSq q * normSq p.2.vector))).insertionSort hitLE).take k,
      ∃ dk doc, (dk, doc) ∈ s.docs ∧ doc.tag = tag ∧
        hit = ⟨dk, doc.content, dot q doc.vector, normSq q * normSq doc.vector⟩ := by
    intro hit hhit
    have h1 := List.take_subset _ _ hhit
    have h2 := (List.perm_insertionSort hitLE _).mem_iff.mp h1
    obtain ⟨p, hp, heq⟩ := List.mem_map.mp h2
    obtain ⟨hpdocs, htag⟩ := List.mem_filter.mp hp
    exact ⟨p.1, p.2, by simpa using hpdocs, by simpa using htag, heq.symm⟩
  refine ⟨List.length_take_le _ _, hmem, ?_⟩
  have hsorted : (((s.docs.filter (fun p => p.2.tag = tag)).map
      (fun p => SearchHit.mk p.1 p.2.content (dot q p.2.vector)
        (normSq q * normSq p.2.vector))).insertionSort hitLE).Pairwise hitLE :=
    List.sorted_insertionSort hitLE _
  have htake := hsorted.sublist (List.take_sublist k _)
  refine List.Pairwise.imp_of_mem ?_ htake
  intro a b ha hb hab
  obtain ⟨_, adoc, _, _, rfl⟩ := hmem a ha
  obtain ⟨_, bdoc, _, _, rfl⟩ := hmem b hb
  exact (simKey_le_iff _ _ _ _
    (mul_nonneg (normSq_nonneg q) (normSq_nonneg bdoc.vector))
    (mul_nonneg (normSq_nonneg q) (normSq_nonneg adoc.vector))).mp hab

/-- Witness for C4's amended claim on the two-vector scenario store. -/
theorem vector_knn_search_spec_witness :
    ([⟨"doc:v1", "c1", 1, 1⟩] : List SearchHit).length ≤ 1 ∧
    (∀ hit ∈ ([⟨"doc:v1", "c1", 1, 1⟩] : List SearchHit), ∃ dk doc,
      (dk, doc) ∈ [("doc:v1", (⟨[1, 0], "c1", "a"⟩ : VDoc)), ("doc:v2", ⟨[0, 1], "c2", "a"⟩)] ∧
      doc.tag = "a" ∧
      hit = ⟨dk, doc.content, dot [1, 0] doc.vector, normSq [1, 0] * normSq doc.vector⟩) ∧
    ([⟨"doc:v1", "c1", 1, 1⟩] : List SearchHit).Pairwise
      (fun h1 h2 => (h2.simNum : ℝ) / Real.sqrt (h2.simDenSq : ℝ) ≤
        (h1.simNum : ℝ) / Real.sqrt (h1.simDenSq : ℝ)) :=
  vector_knn_search_spec ⟨true, [], [("doc:v1", ⟨[1, 0], "c1", "a"⟩), ("doc:v2", ⟨[0, 1], "c2", "a"⟩)], [("idx", 2)]⟩
    "idx" [1, 0] 1 "a" [⟨"doc:v1", "c1", 1, 1⟩] (by decide)
    (by simp [ValkeyService.vector_knn_search, List.insertionSort, List.orderedInsert, hitLE, SearchHit.key, simKey, dot, normSq])

end Eidos
